import Mathlib

/-!
# Verification of the model-training-service data pipeline

Shallow embedding of the data-handling core of the `model-training-service`
(files `data/preprocessor.py`, `data/feature_engineer.py`,
`models/tire_trainer.py`, `training/orchestrator.py`) together with proofs
of the behavioural properties claimed for it.

Modelling conventions:
* Python floats are modelled as `Option ℚ`, with `none` standing for `NaN`
  (infinities are outside the model; no data path of the claims produces one).
* A pandas cell is `Cell`: a missing value, a string, or a float.
* Python strings are Lean `String`s; splitting/cleaning work on `List Char`,
  matching Python's code-point view of a string.
* Functions keep the names of the Python functions they embed.
-/

set_option maxRecDepth 8000

/-- Cell of a pandas column: a missing value (`NaN`/`None`), a string, or a
float.  A float cell `num none` is a stored `NaN`. -/
inductive Cell where
  | null : Cell
  | str (s : String) : Cell
  | num (v : Option Rat) : Cell
deriving DecidableEq, Repr

/-- Numeric value of a list of decimal digit characters (most significant
first), as accumulated by Python's integer/float parser. -/
def digitsVal (cs : List Char) : Nat :=
  cs.foldl (fun a c => a * 10 + (c.toNat - '0'.toNat)) 0

/-- Python `str.split(sep)` for a one-character separator: splits on every
occurrence, keeping empty segments (so the result is never empty). -/
def splitChar (sep : Char) : List Char → List (List Char)
  | [] => [[]]
  | c :: rest =>
    match splitChar sep rest with
    | [] => [[]]
    | h :: t => if c = sep then [] :: h :: t else (c :: h) :: t

/-- Mantissa of a Python float literal: digits with an optional single dot;
at least one digit must be present. -/
def parseMantissa (cs : List Char) : Option Rat :=
  match splitChar '.' cs with
  | [i] =>
    if i ≠ [] ∧ i.all Char.isDigit then some (digitsVal i : Rat) else none
  | [i, f] =>
    if (i ≠ [] ∨ f ≠ []) ∧ i.all Char.isDigit ∧ f.all Char.isDigit then
      some ((digitsVal i : Rat) + (digitsVal f : Rat) / (10 ^ f.length))
    else none
  | _ => none

/-- Exponent part of a Python float literal: optional sign then digits. -/
def parseExp (cs : List Char) : Option Int :=
  match cs with
  | '+' :: rest =>
    if rest ≠ [] ∧ rest.all Char.isDigit then some (digitsVal rest : Int) else none
  | '-' :: rest =>
    if rest ≠ [] ∧ rest.all Char.isDigit then some (-(digitsVal rest : Int)) else none
  | rest =>
    if rest ≠ [] ∧ rest.all Char.isDigit then some (digitsVal rest : Int) else none

/-- Sign-stripped, lowercased core of Python's `float(...)`: `nan` parses to a
stored `NaN` (`some none`), a decimal literal with optional exponent parses to
its value, anything else fails (`none`, modelling `ValueError`). -/
def pyFloatAux (cs : List Char) : Option (Option Rat) :=
  if cs = "nan".toList then some none
  else
    match splitChar 'e' cs with
    | [m] => (parseMantissa m).map some
    | [m, e] =>
      match parseMantissa m, parseExp e with
      | some q, some k => some (some (q * (10 : Rat) ^ k))
      | _, _ => none
    | _ => none

/-- Python `str.strip()` on a character list. -/
def pyStrip (cs : List Char) : List Char :=
  ((cs.dropWhile Char.isWhitespace).reverse.dropWhile Char.isWhitespace).reverse

/-- Python `float(s)` on a character list: strip whitespace, lowercase, take
an optional sign, then parse the core literal.  `none` models a raised
`ValueError`; `some none` models `nan`. -/
def pyFloatL (cs : List Char) : Option (Option Rat) :=
  match (pyStrip cs).map Char.toLower with
  | '+' :: rest => pyFloatAux rest
  | '-' :: rest => (pyFloatAux rest).map (Option.map Neg.neg)
  | rest => pyFloatAux rest

/-- Python `float(s)`. -/
def pyFloat? (s : String) : Option (Option Rat) :=
  pyFloatL s.toList

/-- NaN-propagating addition on modelled floats. -/
def nanAdd (a b : Option Rat) : Option Rat :=
  a.bind fun x => b.map fun y => x + y

/-- NaN-propagating scaling of a modelled float by a constant. -/
def nanSMul (k : Rat) (a : Option Rat) : Option Rat :=
  a.map fun x => k * x

/-- Python `s.lstrip('+')` (drop every leading `'+'`). -/
def lstripPlus (cs : List Char) : List Char :=
  cs.dropWhile (· = '+')

/-- Python `s.lstrip('+').lstrip('-')` as used by the preprocessor. -/
def lstripPlusMinus (cs : List Char) : List Char :=
  (cs.dropWhile (· = '+')).dropWhile (· = '-')

/-- Blank/sentinel test of `DataPreprocessor.time_to_seconds`:
`s == '' or s.upper() in ('-', 'NULL', 'NONE', 'NAN', 'NaN')`. -/
def isSentinelToken (t : List Char) : Bool :=
  t.isEmpty || t.map Char.toUpper == "-".toList || t.map Char.toUpper == "NULL".toList ||
    t.map Char.toUpper == "NONE".toList || t.map Char.toUpper == "NAN".toList

/-- Two-part (`MM:SS`) and three-part (`HH:MM:SS`) colon parse shared by the
converters; `none` models a `ValueError` from one of the `float` calls. -/
def colonParts (parts : List (List Char)) : Option (Option Rat) :=
  match parts with
  | [m, s] =>
    match pyFloatL m, pyFloatL s with
    | some mv, some sv => some (nanAdd (nanSMul 60 mv) sv)
    | _, _ => none
  | [h, m, s] =>
    match pyFloatL h, pyFloatL m, pyFloatL s with
    | some hv, some mv, some sv => some (nanAdd (nanAdd (nanSMul 3600 hv) (nanSMul 60 mv)) sv)
    | _, _, _ => none
  | _ => none

/-- String branch of `DataPreprocessor.time_to_seconds`
(`data/preprocessor.py`): strip; blank/sentinel tokens give `0.0`; then a
direct `float` parse; then strip `+`/`-` and split on `:` as `MM:SS` or
`HH:MM:SS`, else a direct parse again; any `ValueError` degrades to `0.0`. -/
def time_to_seconds_str (s : String) : Option Rat :=
  let t := pyStrip s.toList
  if isSentinelToken t then some 0
  else
    match pyFloatL t with
    | some v => v
    | none =>
      let u := lstripPlusMinus t
      let parts := splitChar ':' u
      if parts.length = 2 ∨ parts.length = 3 then
        match colonParts parts with
        | some v => v
        | none => some 0
      else
        match pyFloatL u with
        | some v => v
        | none => some 0

/-- `DataPreprocessor.time_to_seconds` on a cell: `pd.isna(x)` or a numeric
zero give `0.0`; a stored float round-trips through `str` unchanged; a string
takes the parsing branch. -/
def time_to_seconds (c : Cell) : Option Rat :=
  match c with
  | .null => some 0
  | .num none => some 0
  | .num (some q) => if q = 0 then some 0 else some q
  | .str s => time_to_seconds_str s

/-- String branch of `FeatureEngineer._time_to_seconds`
(`data/feature_engineer.py`): as the preprocessor's converter but it only
strips a leading `+` (not `-`) before the colon split. -/
def fe_time_to_seconds_str (s : String) : Option Rat :=
  let t := pyStrip s.toList
  if isSentinelToken t then some 0
  else
    match pyFloatL t with
    | some v => v
    | none =>
      let u := lstripPlus t
      let parts := splitChar ':' u
      if parts.length = 2 ∨ parts.length = 3 then
        match colonParts parts with
        | some v => v
        | none => some 0
      else
        match pyFloatL u with
        | some v => v
        | none => some 0

/-- `FeatureEngineer._time_to_seconds` on a cell. -/
def fe_time_to_seconds (c : Cell) : Option Rat :=
  match c with
  | .null => some 0
  | .num none => some 0
  | .num (some q) => if q = 0 then some 0 else some q
  | .str s => fe_time_to_seconds_str s

/-- String branch of `TireModelTrainer._lap_time_to_seconds`
(`models/tire_trainer.py`): strip, split on `:`; there is no blank/sentinel
check, and every `ValueError` degrades to `60.0` instead of `0.0`. -/
def lap_time_to_seconds_str (s : String) : Option Rat :=
  let t := pyStrip s.toList
  let parts := splitChar ':' t
  if parts.length = 2 ∨ parts.length = 3 then
    match colonParts parts with
    | some v => v
    | none => some 60
  else
    match pyFloatL t with
    | some v => v
    | none => some 60

/-- `TireModelTrainer._lap_time_to_seconds` on a cell: `pd.isna(x)` or a
numeric zero give `60.0`; a stored float round-trips through `str`
unchanged; a string takes the parsing branch. -/
def lap_time_to_seconds (c : Cell) : Option Rat :=
  match c with
  | .null => some 60
  | .num none => some 60
  | .num (some q) => if q = 0 then some 60 else some q
  | .str s => lap_time_to_seconds_str s

/-- Spec-worded predicate for claim C4: the token fails the direct numeric
parse, and after stripping the sign its colon split fails as `MM:SS`
and as `HH:MM:SS`, and the final direct parse also fails. -/
def parseAttemptsFail (s : String) : Bool :=
  let t := pyStrip s.toList
  (pyFloatL t).isNone &&
    (let u := lstripPlusMinus t
     let parts := splitChar ':' u
     if parts.length = 2 ∨ parts.length = 3 then (colonParts parts).isNone
     else (pyFloatL u).isNone)

/-- Spec-worded parse-failure predicate for `FeatureEngineer._time_to_seconds`:
the token fails the direct numeric parse, and after stripping the leading `+`
(this converter does not strip `-`) its colon split fails as `MM:SS` and as
`HH:MM:SS`, and the final direct parse also fails. -/
def feParseAttemptsFail (s : String) : Bool :=
  let t := pyStrip s.toList
  (pyFloatL t).isNone &&
    (let u := lstripPlus t
     let parts := splitChar ':' u
     if parts.length = 2 ∨ parts.length = 3 then (colonParts parts).isNone
     else (pyFloatL u).isNone)

/-- Decimal digit characters of a natural number, most significant first, as
produced by Python's `str(n)` for a non-negative integer. -/
def natDigits (n : Nat) : List Char :=
  if h : n < 10 then [Char.ofNat (n + 48)]
  else natDigits (n / 10) ++ [Char.ofNat (n % 10 + 48)]
decreasing_by exact Nat.div_lt_self (Nat.lt_of_lt_of_le (by decide) (Nat.le_of_not_lt h)) (by decide)

/-- Python `s.zfill(w)` for an unsigned digit string: left-pad with `'0'` up
to width `w`. -/
def zfill (w : Nat) (cs : List Char) : List Char :=
  List.replicate (w - cs.length) '0' ++ cs

/-- Canonical vehicle identifier derived from a car number, as built by
`TireModelTrainer._add_vehicle_id_mapping` (`models/tire_trainer.py`):
`'GR86-' + str(n).zfill(3) + '-000'`. -/
def vehicle_id_of_number (n : Nat) : List Char :=
  "GR86-".toList ++ zfill 3 (natDigits n) ++ "-000".toList

/-- Python `s.isdigit()` restricted to ASCII: non-empty and all decimal
digits. -/
def pyIsDigit (cs : List Char) : Bool :=
  !cs.isEmpty && cs.all Char.isDigit

/-- Car-number extraction of `FeatureEngineer._add_telemetry_tire_features`
(`data/feature_engineer.py`):
`int(x.split('-')[1]) if '-' in x and x.split('-')[1].isdigit() else 0`. -/
def extract_car_number (x : List Char) : Nat :=
  let seg := (splitChar '-' x).getD 1 []
  if x.contains '-' && pyIsDigit seg then digitsVal seg else 0

/-- First-occurrence list of group keys; pandas `groupby` groups by the set of
distinct key values. -/
def groupKeys {κ β : Type} [DecidableEq κ] (rows : List (κ × β)) : List κ :=
  (rows.map Prod.fst).dedup

/-- pandas `groupby`: each distinct key with the list of its rows. -/
def groupRows {κ β : Type} [DecidableEq κ] (rows : List (κ × β)) : List (κ × List β) :=
  (groupKeys rows).map fun k => (k, (rows.filter fun r => r.1 = k).map Prod.snd)

/-- pandas `groupby(...).agg(...)`: one aggregated record per distinct key. -/
def aggregateBy {κ β γ : Type} [DecidableEq κ] (f : List β → γ) (rows : List (κ × β)) :
    List (κ × γ) :=
  (groupRows rows).map fun kg => (kg.1, f kg.2)

/-- Mean of a pandas column (`skipna=True`): `NaN` entries are dropped, the
mean of nothing is `NaN`. -/
def nmean (xs : List (Option Rat)) : Option Rat :=
  let v := xs.filterMap id
  if v.length = 0 then none else some (v.sum / v.length)

/-- One row of the raw vehicle-telemetry table (columns used by the tire and
fuel feature paths). -/
structure TeleRow where
  vehicle_id : List Char
  lap : Option Rat
  accy_can : Option Rat
  accx_can : Option Rat
  gear : Option Rat
  speed : Option Rat
deriving DecidableEq, Repr

/-- Group key of a telemetry row in `_add_telemetry_tire_features`: the
extracted car number and the `lap` value after `fillna(0)`. -/
def teleKey (r : TeleRow) : Rat × Rat :=
  ((extract_car_number r.vehicle_id : Rat), r.lap.getD 0)

/-- Aggregated telemetry record per (car, lap): mean/std of lateral
acceleration and mean longitudinal acceleration.  `stdFn` abstracts the
irrational pandas `std`. -/
structure TeleAgg where
  lateral_g_mean : Option Rat
  lateral_g_std : Option Rat
  longitudinal_g_mean : Option Rat
deriving DecidableEq, Repr

/-- Aggregation function applied to each (car, lap) telemetry group. -/
def aggTele (stdFn : List (Option Rat) → Option Rat) (g : List TeleRow) : TeleAgg :=
  ⟨nmean (g.map (·.accy_can)), stdFn (g.map (·.accy_can)), nmean (g.map (·.accx_can))⟩

/-- One row of the (already feature-engineered) pit table entering the merge:
its two join-key columns plus the rest of the row. -/
structure PitRow (β : Type) where
  number : Option Rat
  lap_number : Option Rat
  payload : β
deriving DecidableEq, Repr

/-- Join-key match of a pit row against an aggregated key; a `NaN` key on the
left never matches (pandas merge semantics). -/
def pitKeyMatches {β : Type} (r : PitRow β) (k : Rat × Rat) : Bool :=
  r.number = some k.1 && r.lap_number = some k.2

/-- Rows a single left row contributes to a pandas left merge: one output row
per matching right row, or a single row with missing fill when nothing
matches. -/
def leftJoinRow {β γ : Type} (agg : List ((Rat × Rat) × γ)) (r : PitRow β) :
    List (PitRow β × Option γ) :=
  let ms := agg.filter fun e => pitKeyMatches r e.1
  if ms.isEmpty then [(r, none)] else ms.map fun e => (r, some e.2)

/-- pandas `df.merge(agg, on=['NUMBER','LAP_NUMBER'], how='left')`. -/
def merge_left {β γ : Type} (pit : List (PitRow β)) (agg : List ((Rat × Rat) × γ)) :
    List (PitRow β × Option γ) :=
  pit.flatMap (leftJoinRow agg)

/-- Core of `FeatureEngineer._add_telemetry_tire_features`: extract the car
number from each telemetry `vehicle_id`, aggregate by (car, lap), then
left-join the pit rows with the aggregate. -/
def add_telemetry_tire_features {β : Type} (stdFn : List (Option Rat) → Option Rat)
    (pit : List (PitRow β)) (telemetry : List TeleRow) :
    List (PitRow β × Option TeleAgg) :=
  merge_left pit (aggregateBy (aggTele stdFn) (telemetry.map fun r => (teleKey r, r)))

/-- pandas `to_numeric(x, errors='coerce')` on one cell: floats pass through,
strings are parsed, anything unparseable coerces to `NaN`. -/
def cell_to_numeric (c : Cell) : Option Rat :=
  match c with
  | .null => none
  | .num v => v
  | .str s => (pyFloat? s).getD none

/-- `pd.to_numeric(col, errors='coerce').replace(0, np.nan).mean()` as used on
a sector column by `_calculate_degradation_targets`. -/
def sector_mean (cells : List Cell) : Option Rat :=
  nmean (cells.map fun c => (cell_to_numeric c).bind fun q => if q = 0 then none else some q)

/-- One row of the per-car lap slice handled by `_analyze_car_stints`
(`models/tire_trainer.py`): the derived `LAP_TIME_SECONDS` value plus the
optional raw columns the stint features read. -/
structure StintRow where
  lap_time_seconds : Option Rat
  lap_number : Option Rat
  s1 : Cell
  s2 : Cell
  s3 : Cell
  top_speed : Option Rat
  kph : Option Rat
  lap_improvement : Option Rat
  flag_at_fl : Option String
deriving DecidableEq, Repr

/-- A stint window: its rows plus which optional columns exist in the frame. -/
structure StintDF where
  rows : List StintRow
  hasS1 : Bool
  hasS2 : Bool
  hasS3 : Bool
  hasTopSpeed : Bool
  hasKph : Bool
  hasLapImprovement : Bool
  hasFlagAtFl : Bool
deriving DecidableEq, Repr

/-- The four target values produced by
`TireModelTrainer._calculate_degradation_targets`. -/
structure DegradationTargets where
  degradation_s1 : Rat
  degradation_s2 : Rat
  degradation_s3 : Rat
  grip_loss_rate : Rat
deriving DecidableEq, Repr

/-- Per-sector target of `_calculate_degradation_targets`: when the sector
column exists in both stints and both zero-free means are non-`NaN` with a
positive current mean, the per-lap delta clamped to `[0.001, 0.5]`; otherwise
the conservative default `0.03`. -/
def sectorTarget (curHas nextHas : Bool) (cur next : List Cell) (nextLen : Nat) : Rat :=
  if curHas && nextHas then
    match sector_mean cur, sector_mean next with
    | some ca, some na =>
      if 0 < ca then max (1/1000) (min (1/2) ((na - ca) / (nextLen : Rat))) else 3/100
    | _, _ => 3/100
  else 3/100

/-- `TireModelTrainer._calculate_degradation_targets` on the current and next
stint windows.  The overall `grip_loss_rate` is clamped with
`max(0.001, min(1.0, ...))` — an upper bound of `1.0`, not `0.5`. -/
def calculate_degradation_targets (cur next : StintDF) : DegradationTargets :=
  let s1 := sectorTarget cur.hasS1 next.hasS1 (cur.rows.map (·.s1)) (next.rows.map (·.s1))
    next.rows.length
  let s2 := sectorTarget cur.hasS2 next.hasS2 (cur.rows.map (·.s2)) (next.rows.map (·.s2))
    next.rows.length
  let s3 := sectorTarget cur.hasS3 next.hasS3 (cur.rows.map (·.s3)) (next.rows.map (·.s3))
    next.rows.length
  let curT := nmean (cur.rows.map (·.lap_time_seconds))
  let nextT := nmean (next.rows.map (·.lap_time_seconds))
  let grip :=
    match curT, nextT with
    | some ca, some na =>
      if 0 < ca ∧ 0 < na then max (1/1000) (min 1 ((na - ca) / (next.rows.length : Rat)))
      else 1/20
    | _, _ => 1/20
  ⟨s1, s2, s3, grip⟩

/-- pandas sample variance (`Series.var()`, `ddof=1`, `skipna=True`). -/
def svar (xs : List (Option Rat)) : Option Rat :=
  let v := xs.filterMap id
  if v.length ≤ 1 then none
  else
    let m := v.sum / (v.length : Rat)
    some ((v.map fun x => (x - m) ^ 2).sum / ((v.length : Rat) - 1))

/-- `np.var` of a raw value array: population variance, `NaN` if any entry is
`NaN` or the array is empty. -/
def npvar (xs : List (Option Rat)) : Option Rat :=
  if xs.any (·.isNone) then none
  else
    let v := xs.filterMap id
    if v.length = 0 then none
    else
      let m := v.sum / (v.length : Rat)
      some ((v.map fun x => (x - m) ^ 2).sum / (v.length : Rat))

/-- Maximum of a pandas column (`skipna=True`); `NaN` when nothing remains. -/
def nmax (xs : List (Option Rat)) : Option Rat :=
  (xs.filterMap id).foldl
    (fun acc x => match acc with | none => some x | some a => some (max a x)) none

/-- Mean of a boolean pandas column (fraction of `True`); `NaN` on empty. -/
def boolRatio (bs : List Bool) : Option Rat :=
  if bs.length = 0 then none else some ((bs.count true : Rat) / (bs.length : Rat))

/-- Substring containment on character lists, Python's `needle in hay`. -/
def containsSubL (hay needle : List Char) : Bool :=
  hay.tails.any fun t => needle.isPrefixOf t

/-- Substring containment, Python's `needle in hay`. -/
def containsSub (hay needle : String) : Bool :=
  containsSubL hay.toList needle.toList

/-- `TireModelTrainer._get_track_abrasiveness`: static lookup by substring on
the lowercased track name. -/
def get_track_abrasiveness (track : String) : Rat :=
  let t := track.toList.map Char.toLower
  if containsSubL t "barber".toList || containsSubL t "sonoma".toList ||
      containsSubL t "sebring".toList then 4/5
  else if containsSubL t "cota".toList || containsSubL t "road_america".toList ||
      containsSubL t "virginia".toList then 1/2
  else 3/5

/-- `TireModelTrainer._get_track_length_factor`: static lookup by substring on
the lowercased track name. -/
def get_track_length_factor (track : String) : Rat :=
  let t := track.toList.map Char.toLower
  if containsSubL t "road_america".toList || containsSubL t "cota".toList then 6/5
  else if containsSubL t "barber".toList || containsSubL t "sonoma".toList then 4/5
  else 1

/-- `TireModelTrainer._get_fallback_weather_conditions`. -/
def get_fallback_weather_conditions : List (String × Option Rat) :=
  [("avg_track_temp", some 35), ("track_temp_variance", some 5),
   ("avg_air_temp", some 25), ("humidity_level", some 50), ("pressure_level", some 1013)]

/-- The weather table as seen by `_calculate_track_conditions`: emptiness plus
the optional numeric columns it reads. -/
structure WeatherDF where
  isEmpty : Bool
  track_temp : Option (List (Option Rat))
  air_temp : Option (List (Option Rat))
  humidity : Option (List (Option Rat))
  pressure : Option (List (Option Rat))
deriving DecidableEq, Repr

/-- `TireModelTrainer._calculate_track_conditions`: static track descriptors
plus weather means (with per-column defaults), or the fallback weather block
when the weather table is empty.  Key order follows the Python dict. -/
def calculate_track_conditions (w : WeatherDF) (track : String) : List (String × Option Rat) :=
  [("track_abrasiveness", some (get_track_abrasiveness track)),
   ("track_length_factor", some (get_track_length_factor track))] ++
  (if !w.isEmpty then
    [("avg_track_temp", match w.track_temp with | some col => nmean col | none => some 35),
     ("track_temp_variance", match w.track_temp with | some col => svar col | none => some 5),
     ("avg_air_temp", match w.air_temp with | some col => nmean col | none => some 25),
     ("humidity_level", match w.humidity with | some col => nmean col | none => some 50),
     ("pressure_level", match w.pressure with | some col => nmean col | none => some 1013)]
  else get_fallback_weather_conditions)

/-- The telemetry table as seen by `_calculate_driving_factors`: rows plus
which optional columns exist. -/
structure TeleDF where
  rows : List TeleRow
  hasAccy : Bool
  hasAccx : Bool
  hasGear : Bool
  hasSpeed : Bool
deriving DecidableEq, Repr

/-- `TireModelTrainer._calculate_driving_factors`: four fixed keys, updated
from the car's telemetry over the stint laps when present, otherwise the
initial defaults.  Matches rows by the derived vehicle id and lap membership. -/
def calculate_driving_factors (stintLapNums : List (Option Rat)) (tele : TeleDF)
    (carNumber : Nat) : List (String × Option Rat) :=
  let vid := vehicle_id_of_number carNumber
  let ct := tele.rows.filter fun r => r.vehicle_id = vid && stintLapNums.contains r.lap
  let active := !tele.rows.isEmpty && !ct.isEmpty
  [("estimated_lateral_force",
    if active && tele.hasAccy then nmean (ct.map fun r => r.accy_can.map (|·|)) else some (1/2)),
   ("estimated_braking_force",
    if active && tele.hasAccx then
      some (((ct.filter fun r => match r.accx_can with
        | some v => v < -(3/10) | none => false).length : Rat) / (ct.length : Rat))
    else some (3/10)),
   ("driving_aggressiveness",
    if active && tele.hasSpeed then
      match svar (ct.map (·.speed)) with
      | some v => some (min 1 (v / 500))
      | none => some (min 1 (3/5))
    else some (3/5)),
   ("gear_usage_efficiency",
    if active && tele.hasGear then
      boolRatio (ct.map fun r => match r.gear with
        | some g => decide (2 ≤ g ∧ g ≤ 6) | none => false)
    else some (7/10))]

/-- The fixed 23-key record of `TireModelTrainer._get_fallback_features`
(note: it does not contain `car_number`). -/
def get_fallback_features (track : String) (stintLength : Nat) : List (String × Option Rat) :=
  [("lap_time_degradation_slope", some (1/10)),
   ("lap_time_consistency", some 0),
   ("sector_1_degradation_slope", some (3/100)),
   ("sector_2_degradation_slope", some (3/100)),
   ("sector_3_degradation_slope", some (3/100)),
   ("avg_top_speed", some 150),
   ("avg_kph", some 120),
   ("lap_improvement_ratio", some (1/2)),
   ("caution_flag_ratio", some (1/10)),
   ("lap_time_variance", some 1),
   ("performance_consistency", some (1/2)),
   ("track_abrasiveness", some (get_track_abrasiveness track)),
   ("track_length_factor", some (get_track_length_factor track)),
   ("stint_length", some (stintLength : Rat)),
   ("cumulative_laps", some (stintLength : Rat))] ++
  get_fallback_weather_conditions ++
  [("estimated_lateral_force", some (1/2)),
   ("estimated_braking_force", some (3/10)),
   ("driving_aggressiveness", some (3/5)),
   ("gear_usage_efficiency", some (7/10))]

/-- Per-sector degradation-slope feature of the normal path: `fillna(0)`
numeric conversion, then a trend slope when more than one value exists and not
all are zero, else the conservative `0.03`. -/
def sectorSlopeFeature (trendFn : List (Option Rat) → List (Option Rat) → Rat × Rat)
    (lapNums : List (Option Rat)) (has : Bool) (cells : List Cell) : Option Rat :=
  if has then
    let vals := cells.map fun c => (cell_to_numeric c).getD 0
    if 1 < vals.length ∧ ¬vals.all (· = 0) then
      some (max 0 (trendFn lapNums (vals.map some)).1)
    else some (3/100)
  else some (3/100)

/-- `TireModelTrainer._calculate_stint_features`.  `trendFn` abstracts
`_linear_trend_analysis` (numpy `polyfit`/`corrcoef`, total, returning
`(slope, r_squared)`).  The only statement in the guarded block that can raise
on a type-correct frame is the caution-flag ratio's division by
`len(stint_laps)`; when the stint is empty and `FLAG_AT_FL` exists, the
`except` branch replaces everything with `_get_fallback_features`. -/
def calculate_stint_features (trendFn : List (Option Rat) → List (Option Rat) → Rat × Rat)
    (stint : StintDF) (tele : TeleDF) (weather : WeatherDF)
    (track : String) (carNumber : Nat) : List (String × Option Rat) :=
  if stint.rows.isEmpty && stint.hasFlagAtFl then
    get_fallback_features track stint.rows.length
  else
    let lapTimes := stint.rows.map (·.lap_time_seconds)
    let lapNums := stint.rows.map (·.lap_number)
    let n := stint.rows.length
    let tr := trendFn lapNums lapTimes
    let ltv : Option Rat := if 1 < n then npvar lapTimes else some 1
    [("lap_time_degradation_slope", if 1 < n then some (max 0 tr.1) else some (1/10)),
     ("lap_time_consistency", if 1 < n then some tr.2 else some 0),
     ("sector_1_degradation_slope",
       sectorSlopeFeature trendFn lapNums stint.hasS1 (stint.rows.map (·.s1))),
     ("sector_2_degradation_slope",
       sectorSlopeFeature trendFn lapNums stint.hasS2 (stint.rows.map (·.s2))),
     ("sector_3_degradation_slope",
       sectorSlopeFeature trendFn lapNums stint.hasS3 (stint.rows.map (·.s3))),
     ("avg_top_speed", if stint.hasTopSpeed then nmean (stint.rows.map (·.top_speed))
       else some 150),
     ("avg_kph", if stint.hasKph then nmean (stint.rows.map (·.kph)) else some 120),
     ("lap_improvement_ratio", if stint.hasLapImprovement then
        boolRatio (stint.rows.map fun r => match r.lap_improvement with
          | some v => decide (0 < v) | none => false)
      else some (1/2)),
     ("caution_flag_ratio", if stint.hasFlagAtFl then
        some (((stint.rows.filter fun r => match r.flag_at_fl with
          | some s => containsSub s "FCY" || containsSub s "SC"
          | none => false).length : Rat) / (n : Rat))
      else some (1/10)),
     ("lap_time_variance", ltv),
     ("performance_consistency", ltv.map fun v => 1 / (1 + v))] ++
    calculate_track_conditions weather track ++
    calculate_driving_factors lapNums tele carNumber ++
    [("stint_length", some (n : Rat)),
     ("cumulative_laps", nmax lapNums),
     ("car_number", some (carNumber : Rat))]

/-- The fixed 24-name feature vector emitted by the normal path of
`_calculate_stint_features`, in emission order. -/
def declared_feature_names : List String :=
  ["lap_time_degradation_slope", "lap_time_consistency",
   "sector_1_degradation_slope", "sector_2_degradation_slope",
   "sector_3_degradation_slope", "avg_top_speed", "avg_kph",
   "lap_improvement_ratio", "caution_flag_ratio", "lap_time_variance",
   "performance_consistency", "track_abrasiveness", "track_length_factor",
   "avg_track_temp", "track_temp_variance", "avg_air_temp", "humidity_level",
   "pressure_level", "estimated_lateral_force", "estimated_braking_force",
   "driving_aggressiveness", "gear_usage_efficiency", "stint_length",
   "cumulative_laps", "car_number"]

/-- Set a key in an association list: replace in place when present, append
otherwise (Python `dict` assignment). -/
def setAssoc {α : Type} (l : List (String × α)) (k : String) (v : α) : List (String × α) :=
  match l with
  | [] => [(k, v)]
  | (k', v') :: rest => if k' = k then (k, v) :: rest else (k', v') :: setAssoc rest k v

/-- Lookup in an association list (Python `dict` access / file existence). -/
def getAssoc {α : Type} (l : List (String × α)) (k : String) : Option α :=
  match l with
  | [] => none
  | (k', v') :: rest => if k' = k then some v' else getAssoc rest k

/-- The persisted training state of `TrainingOrchestrator`
(`training/orchestrator.py`): the `training_state.pkl` record plus the
per-track `<track>_processed.pkl` cache files.  A cached value `none` models a
falsy (empty) processed-data dict that was still dumped to the cache. -/
structure OrchState (α : Type) where
  processedTracks : List String
  processedDataKeys : List String
  cache : List (String × Option α)
  modelKeys : List String
  completed : Bool
deriving DecidableEq, Repr

/-- The fresh state returned by `_load_training_state` when no checkpoint
exists. -/
def freshState (α : Type) : OrchState α :=
  ⟨[], [], [], [], false⟩

/-- `_load_processed_data_state`: reload the cached per-track artifacts for
every track listed in `processed_data_keys` that has a usable cache entry. -/
def load_processed_data_state {α : Type} (s : OrchState α) : List (String × α) :=
  s.processedDataKeys.filterMap fun t => ((getAssoc s.cache t).bind id).map fun d => (t, d)

/-- Outcome of the raw per-track pipeline (fetch → preprocess → feature
engineering) for one track: `none` models a raised exception, `some none` a
falsy (empty) result, `some (some d)` a processed artifact. -/
abbrev ProcessFn (α : Type) := String → Option (Option α)

/-- Accumulator of the per-track loop of `train_all_models`: the persisted
state, the in-memory `all_processed_data`, the `processed_tracks` list, and
the tracks on which the raw pipeline actually ran (cache misses). -/
structure LoopAcc (α : Type) where
  st : OrchState α
  apd : List (String × α)
  pt : List String
  invoked : List String
deriving DecidableEq, Repr

/-- Success continuation of one loop iteration (`train_all_models` lines
56-64): record the artifact in `all_processed_data`, append the track to
`processed_tracks`, persist the incremental state and re-dump the artifact
(`_save_track_data`). -/
def applySuccess {α : Type} (a : LoopAcc α) (t : String) (st1 : OrchState α)
    (inv1 : List String) (d : α) : LoopAcc α :=
  let apd' := setAssoc a.apd t d
  let pt' := a.pt ++ [t]
  ⟨{ st1 with
      processedTracks := pt'
      processedDataKeys := apd'.map Prod.fst
      cache := setAssoc st1.cache t (some d) },
    apd', pt', inv1⟩

/-- One iteration of the per-track loop (`train_all_models` lines 52-69 with
`_process_single_track`): use the cached artifact if present, otherwise run
the raw pipeline and dump its result to the cache; on success record the
artifact, append to `processed_tracks` and persist the incremental state; on a
falsy result skip; on an exception continue unchanged. -/
def stepTrack {α : Type} (process : ProcessFn α) (a : LoopAcc α) (t : String) : LoopAcc α :=
  match getAssoc a.st.cache t with
  | some none => a
  | some (some d) => applySuccess a t a.st a.invoked d
  | none =>
    match process t with
    | none => { a with invoked := a.invoked ++ [t] }
    | some none =>
      { a with st := { a.st with cache := setAssoc a.st.cache t none },
               invoked := a.invoked ++ [t] }
    | some (some d) =>
      applySuccess a t { a.st with cache := setAssoc a.st.cache t (some d) }
        (a.invoked ++ [t]) d

/-- The per-track loop over the remaining tracks. -/
def runLoop {α : Type} (process : ProcessFn α) (a : LoopAcc α) (ts : List String) : LoopAcc α :=
  ts.foldl (stepTrack process) a

/-- Which return path `train_all_models` took. -/
inductive RunPath where
  | completedEarly : RunPath
  | noTracks : RunPath
  | finalized : RunPath
  | trained : RunPath
  | noData : RunPath
deriving DecidableEq, Repr

/-- Observable outcome of one `train_all_models` run: the state left behind,
the final `all_processed_data` aggregate, the tracks iterated over
(`remaining_tracks`), the tracks whose raw pipeline ran, and the return
path. -/
structure RunOut (α : Type) where
  st : OrchState α
  aggregate : List (String × α)
  iterated : List String
  invoked : List String
  path : RunPath
deriving DecidableEq, Repr

/-- `TrainingOrchestrator.train_all_models`.  `trainModels` abstracts
`_train_models_with_processed_data` (it returns the keys of the trained model
dict); the checkpoint store is single-writer and sequential, so the
read-modify-write `_update_training_state` is a record update. -/
def train_all_models {α : Type} (trainModels : List (String × α) → List String → List String)
    (available : List String) (process : ProcessFn α) (s : OrchState α) : RunOut α :=
  if s.completed then ⟨s, [], [], [], .completedEarly⟩
  else if available.isEmpty then ⟨s, [], [], [], .noTracks⟩
  else
    let remaining := available.filter fun t => !(s.processedTracks.contains t)
    if remaining.isEmpty then
      ⟨{ s with completed := true }, [], [], [], .finalized⟩
    else
      let a0 : LoopAcc α := ⟨s, load_processed_data_state s, s.processedTracks, []⟩
      let r := runLoop process a0 remaining
      if r.apd.isEmpty then ⟨r.st, [], remaining, r.invoked, .noData⟩
      else
        let mk := trainModels r.apd s.modelKeys
        let st' := { r.st with
          processedTracks := r.pt
          processedDataKeys := r.apd.map Prod.fst
          modelKeys := mk
          completed := decide (r.pt.length = available.length) }
        ⟨st', r.apd, remaining, r.invoked, .trained⟩

/-- Result value a trainer's `train` returns: a success record or an error
record (`status` field). -/
inductive TrainResult where
  | success (info : String) : TrainResult
  | error (msg : String) : TrainResult
deriving DecidableEq, Repr

/-- Entry recorded in the orchestrator's `models` dict for one trainer: the
successful result, or an `{'error': ...}` record. -/
inductive ModelEntry where
  | model (info : String) : ModelEntry
  | err (msg : String) : ModelEntry
deriving DecidableEq, Repr

/-- How `_train_models_with_processed_data` records a trainer result. -/
def entryOf (r : TrainResult) : ModelEntry :=
  match r with
  | .success i => .model i
  | .error m => .err m

/-- Per-track input to the trainers: whether the track's `pit_data` is
empty. -/
structure TrackData where
  pitEmpty : Bool
deriving DecidableEq, Repr

/-- Leading validation of `TireModelTrainer.train` (`models/tire_trainer.py`
lines 29-35): with fewer than 2 tracks it returns an `'Insufficient tracks'`
error result; `tireRest` abstracts the rest of its behaviour. -/
def tire_train (tireRest : List (String × TrackData) → TrainResult)
    (tracks : List (String × TrackData)) : TrainResult :=
  if tracks.length < 2 then .error "Insufficient tracks for tire model"
  else tireRest tracks

/-- `TrainingOrchestrator._train_models_with_processed_data`: filter the
tracks with non-empty pit data; return the existing models untouched when none
remain; otherwise invoke the tire and fuel trainers unconditionally and the
pit-strategy and weather trainers only when at least 2 valid tracks exist,
recording each invoked trainer's result (success or error entry).  Returns the
models dict and the list of trainers actually invoked. -/
def train_models_with_processed_data
    (tireRest fuelRun pitRun weatherRun : List (String × TrackData) → TrainResult)
    (processedData : List (String × TrackData))
    (existing : List (String × ModelEntry)) :
    List (String × ModelEntry) × List String :=
  let valid := processedData.filter fun p => !p.2.pitEmpty
  if valid.isEmpty then (existing, [])
  else
    let m1 := setAssoc existing "tire_degradation" (entryOf (tire_train tireRest valid))
    let m2 := setAssoc m1 "fuel_consumption" (entryOf (fuelRun valid))
    let inv2 := ["tire", "fuel"]
    let (m3, inv3) :=
      if 2 ≤ valid.length then
        (setAssoc m2 "pit_strategy" (entryOf (pitRun valid)), inv2 ++ ["pit"])
      else (m2, inv2)
    let (m4, inv4) :=
      if 2 ≤ valid.length then
        (setAssoc m3 "weather_impact" (entryOf (weatherRun valid)), inv3 ++ ["weather"])
      else (m3, inv3)
    (m4, inv4)

/-- A pandas column with its dtype: an `object` column of strings/missing
values, or a `float64` column. -/
inductive Col where
  | obj (cells : List (Option String)) : Col
  | f64 (vals : List (Option Rat)) : Col
deriving DecidableEq, Repr

/-- A pandas DataFrame: named columns in order. -/
structure DF where
  cols : List (String × Col)
deriving DecidableEq, Repr

/-- Number of rows stored in a column. -/
def colLen (c : Col) : Nat :=
  match c with
  | .obj cells => cells.length
  | .f64 vals => vals.length

/-- pandas `df.empty`: no columns or no rows. -/
def dfEmpty (df : DF) : Bool :=
  df.cols.isEmpty || df.cols.all fun p => colLen p.2 = 0

/-- Column lookup `df[name]` / `name in df.columns`. -/
def getCol (df : DF) (k : String) : Option Col :=
  getAssoc df.cols k

/-- Column assignment `df[name] = ...`: replace in place or append. -/
def setCol (df : DF) (k : String) (c : Col) : DF :=
  ⟨setAssoc df.cols k c⟩

/-- Python `str.strip('_')` on a character list. -/
def stripUnders (cs : List Char) : List Char :=
  ((cs.dropWhile (· = '_')).reverse.dropWhile (· = '_')).reverse

/-- One character of `re.sub(r'[^0-9A-Za-z_]+', '_', ...)`: disallowed
characters become `'_'`. -/
def cleanChar (c : Char) : Char :=
  if c.isAlphanum || c = '_' then c else '_'

/-- Collapse every run of consecutive underscores to a single underscore.
Mapping each disallowed character to `'_'` and then collapsing runs is the
composition of the two `re.sub` calls of `_clean_col` (each maximal run of
characters from `[^0-9A-Za-z_] ∪ _` that contains an underscore or a
disallowed character ends up as one underscore either way). -/
def collapseUnders : List Char → List Char
  | [] => []
  | [c] => [c]
  | a :: b :: r =>
    if a = '_' ∧ b = '_' then collapseUnders (b :: r) else a :: collapseUnders (b :: r)

/-- `DataPreprocessor._clean_col` (`data/preprocessor.py`): drop a leading
BOM, strip whitespace, replace runs of characters outside `[0-9A-Za-z_]` by a
single underscore, collapse multiple underscores, strip outer underscores,
uppercase. -/
def clean_col (s : String) : String :=
  String.mk
    (((stripUnders (collapseUnders
      ((pyStrip (s.toList.dropWhile (· = '﻿'))).map cleanChar)))).map Char.toUpper)

/-- Duplicate-column renaming of `_normalize_dataframe`: a repeated name gets
the suffix `_k` with a per-name counter. -/
def dedupNames : List String → List (String × Nat) → List String
  | [], _ => []
  | c :: rest, seen =>
    match getAssoc seen c with
    | some k =>
      (c ++ "_" ++ String.mk (natDigits (k + 1))) :: dedupNames rest (setAssoc seen c (k + 1))
    | none => c :: dedupNames rest (setAssoc seen c 0)

/-- String-cell cleaning of `_normalize_dataframe`:
`astype(str).str.strip().replace(dict)` — a missing value prints as `'nan'`,
the stripped value is replaced by `''` when it is one of the textual null
spellings, and an empty result becomes a missing value.  The `replace` is a
single non-recursive pass. -/
def clean_str_cell (c : Option String) : Option String :=
  let s := match c with | none => "nan" | some v => v
  let t := String.mk (pyStrip s.toList)
  if t = "None" ∨ t = "nan" ∨ t = "NaN" ∨ t = "null" ∨ t = "NULL" then some ""
  else if t = "" then none
  else some t

/-- Apply the string cleaning to `object` columns only
(`select_dtypes(include=['object'])`). -/
def cleanColCells (c : Col) : Col :=
  match c with
  | .obj cells => .obj (cells.map clean_str_cell)
  | .f64 vals => .f64 vals

/-- `DataPreprocessor._normalize_dataframe`: clean the column names,
de-duplicate collisions by suffixing, and clean the string cells of object
columns. -/
def normalize_dataframe (df : DF) : DF :=
  let renamed := df.cols.map fun p => (clean_col p.1, p.2)
  let names := dedupNames (renamed.map Prod.fst) []
  ⟨(names.zip (renamed.map Prod.snd)).map fun p => (p.1, cleanColCells p.2)⟩

/-- Cells of a column in the shared `Cell` view. -/
def colCells (c : Col) : List Cell :=
  match c with
  | .obj cells => cells.map fun v => match v with | none => Cell.null | some s => Cell.str s
  | .f64 vals => vals.map Cell.num

/-- `df[col].apply(self.time_to_seconds)`: a float64 result column. -/
def timeSecondsCol (c : Col) : Col :=
  .f64 ((colCells c).map time_to_seconds)

/-- `pd.to_numeric(col, errors='coerce')`. -/
def toNumericCol (c : Col) : Col :=
  .f64 ((colCells c).map cell_to_numeric)

/-- `col.fillna(0)` on a float64 column (object columns cannot occur where it
is used). -/
def fillna0 (c : Col) : Col :=
  match c with
  | .obj cells => .obj cells
  | .f64 vals => .f64 (vals.map fun v => some (v.getD 0))

/-- The `for col in names: if col in df.columns: df[col+'_SECONDS'] = ...`
loops of `preprocess_pit_data`. -/
def applyTimeCols (names : List String) (df : DF) : DF :=
  names.foldl
    (fun d col =>
      match getCol d col with
      | some c => setCol d (col ++ "_SECONDS") (timeSecondsCol c)
      | none => d)
    df

/-- The numeric-coercion loop of `preprocess_pit_data`:
`df[col] = pd.to_numeric(df[col], errors='coerce').fillna(0)`. -/
def applyNumericCols (names : List String) (df : DF) : DF :=
  names.foldl
    (fun d col =>
      match getCol d col with
      | some c => setCol d col (fillna0 (toNumericCol c))
      | none => d)
    df

/-- `time_columns` of `preprocess_pit_data`. -/
def timeColumns : List String := ["LAP_TIME", "S1", "S2", "S3", "PIT_TIME", "FL_TIME"]

/-- `intermediate_times` of `preprocess_pit_data` (lower-case names: always
absent after normalization uppercases the columns). -/
def intermediateTimeCols : List String :=
  ["IM1a_time", "IM1_time", "IM2a_time", "IM2_time", "IM3a_time", "FL_time"]

/-- `elapsed_columns` of `preprocess_pit_data`. -/
def elapsedCols : List String :=
  ["IM1a_elapsed", "IM1_elapsed", "IM2a_elapsed", "IM2_elapsed", "IM3a_elapsed", "FL_elapsed"]

/-- `numeric_columns` of `preprocess_pit_data`. -/
def numericColumns : List String :=
  ["NUMBER", "DRIVER_NUMBER", "LAP_NUMBER", "LAP_IMPROVEMENT", "S1_IMPROVEMENT",
   "S2_IMPROVEMENT", "S3_IMPROVEMENT", "KPH", "TOP_SPEED", "S1_SECONDS", "S2_SECONDS",
   "S3_SECONDS"]

/-- `large_sector_cols` of `preprocess_pit_data`. -/
def largeSectorCols : List String := ["S1_LARGE", "S2_LARGE", "S3_LARGE"]

/-- `x.notna().any()` on a float column. -/
def notnaAny (vs : List (Option Rat)) : Bool :=
  vs.any (·.isSome)

/-- Minimum of a pandas column (`skipna=True`). -/
def nmin (xs : List (Option Rat)) : Option Rat :=
  (xs.filterMap id).foldl
    (fun acc x => match acc with | none => some x | some a => some (min a x)) none

/-- `groupby('NUMBER')['LAP_TIME_SECONDS'].transform(lambda x: x - x.min()
if x.notna().any() else 0)`. -/
def transformDrop (nums lts : List (Option Rat)) : List (Option Rat) :=
  (nums.zip lts).map fun p =>
    let g := ((nums.zip lts).filter fun q => q.1 = p.1).map Prod.snd
    if notnaAny g then p.2.map fun x => x - (nmin g).getD 0
    else some 0

/-- `groupby('NUMBER')['LAP_TIME_SECONDS'].transform(lambda x: x.std() if
x.notna().any() and len(x) > 1 else 0).fillna(0)`; `stdFn` abstracts the
irrational pandas `std`. -/
def transformConsistency (stdFn : List (Option Rat) → Option Rat)
    (nums lts : List (Option Rat)) : List (Option Rat) :=
  (nums.zip lts).map fun p =>
    let g := ((nums.zip lts).filter fun q => q.1 = p.1).map Prod.snd
    some ((if notnaAny g ∧ 1 < g.length then stdFn g else some 0).getD 0)

/-- The performance-metric block of `preprocess_pit_data`: runs only when
`LAP_TIME_SECONDS` and `NUMBER` are float columns (an object column raises
inside the guarded `try`, which assigns nothing). -/
def perfBlock (stdFn : List (Option Rat) → Option Rat) (df : DF) : DF :=
  match getCol df "LAP_TIME_SECONDS", getCol df "NUMBER" with
  | some (.f64 lts), some (.f64 nums) =>
    let d1 := setCol df "PERFORMANCE_DROP" (.f64 (transformDrop nums lts))
    setCol d1 "CONSISTENCY" (.f64 (transformConsistency stdFn nums lts))
  | _, _ => df

/-- `DataPreprocessor.preprocess_pit_data`: empty input yields a fresh empty
frame; otherwise normalize, derive the `*_SECONDS` columns, coerce the numeric
columns, and add the per-car performance metrics. -/
def preprocess_pit_data (stdFn : List (Option Rat) → Option Rat) (df : DF) : DF :=
  if dfEmpty df then ⟨[]⟩
  else
    perfBlock stdFn
      (applyTimeCols largeSectorCols
        (applyNumericCols numericColumns
          (applyTimeCols elapsedCols
            (applyTimeCols intermediateTimeCols
              (applyTimeCols timeColumns
                (normalize_dataframe df))))))

/-- Characterization of `all_processed_data` after processing the tracks `ts`
from a fresh state: each track whose raw pipeline returns an artifact, with
that artifact, in order. -/
def okAssoc {α : Type} (process : ProcessFn α) (ts : List String) : List (String × α) :=
  ts.filterMap fun t => ((process t).bind id).map fun d => (t, d)

/-- Characterization of the cache after processing the tracks `ts` from a
fresh state: one dumped entry per non-raising track, in order. -/
def cacheOf {α : Type} (process : ProcessFn α) (ts : List String) : List (String × Option α) :=
  ts.filterMap fun t => (process t).map fun v => (t, v)

/-- Stint row with a given lap-time value and no optional data, for concrete
runs. -/
def stintRowOfTime (lt : Option Rat) : StintRow :=
  ⟨lt, some 1, Cell.null, Cell.null, Cell.null, none, none, none, none⟩

/-- Current window of the C5 counterexample: two laps of 10 s. -/
def curStint : StintDF :=
  ⟨[stintRowOfTime (some 10), stintRowOfTime (some 10)],
    false, false, false, false, false, false, false⟩

/-- Next window of the C5 counterexample: two laps of 12 s. -/
def nextStint : StintDF :=
  ⟨[stintRowOfTime (some 12), stintRowOfTime (some 12)],
    false, false, false, false, false, false, false⟩

/-- Trainer continuation that always succeeds, used to instantiate the
abstract trainer remainders in concrete runs. -/
def trainerRestOk : List (String × TrackData) → TrainResult := fun _ => .success "ok"

/-- Trend function returning a zero slope and zero fit, for concrete runs. -/
def trendZero : List (Option Rat) → List (Option Rat) → Rat × Rat := fun _ _ => (0, 0)

/-- Empty telemetry table, for concrete runs. -/
def teleEmpty : TeleDF := ⟨[], false, false, false, false⟩

/-- Empty weather table, for concrete runs. -/
def weatherEmpty : WeatherDF := ⟨true, none, none, none, none⟩

/-! ## Helper lemmas -/

theorem getAssoc_setAssoc_self {α : Type} (l : List (String × α)) (k : String) (v : α) :
    getAssoc (setAssoc l k v) k = some v := by
  induction l with
  | nil => simp [setAssoc, getAssoc]
  | cons p rest ih =>
    by_cases h : p.1 = k
    · simp [setAssoc, getAssoc, h]
    · simp [setAssoc, getAssoc, h, ih]

theorem getAssoc_setAssoc_ne {α : Type} (l : List (String × α)) (k k' : String) (v : α)
    (h : k' ≠ k) : getAssoc (setAssoc l k v) k' = getAssoc l k' := by
  induction l with
  | nil => simp [setAssoc, getAssoc, Ne.symm h]
  | cons p rest ih =>
    by_cases hp : p.1 = k
    · subst hp
      simp [setAssoc, getAssoc, h, Ne.symm h]
    · by_cases hp' : p.1 = k'
      · simp [setAssoc, getAssoc, hp, hp', h]
      · simp [setAssoc, getAssoc, hp, hp', ih]

theorem setAssoc_append_of_absent {α : Type} (l : List (String × α)) (k : String) (v : α)
    (h : getAssoc l k = none) : setAssoc l k v = l ++ [(k, v)] := by
  induction l with
  | nil => simp [setAssoc]
  | cons p rest ih =>
    by_cases hp : p.1 = k
    · simp [getAssoc, hp] at h
    · simp [getAssoc, hp] at h
      simp [setAssoc, hp, ih h]

theorem setAssoc_eq_self_of_getAssoc {α : Type} (l : List (String × α)) (k : String) (v : α)
    (h : getAssoc l k = some v) : setAssoc l k v = l := by
  induction l with
  | nil => simp [getAssoc] at h
  | cons p rest ih =>
    obtain ⟨pk, pv⟩ := p
    by_cases hp : pk = k
    · simp [getAssoc, hp] at h
      simp [setAssoc, hp, h]
    · simp [getAssoc, hp] at h
      simp [setAssoc, hp, ih h]

/-! ## Claim C4: time-codec totality and sentinel handling (corrected) -/

/-- Claim C4, counterexample: the claim states that every time-token
conversion routine used by the pipeline returns `0.0` for the sentinel token
`"-"`, but `TireModelTrainer._lap_time_to_seconds` returns `60.0` there. -/
theorem C4_counterexample :
    lap_time_to_seconds (Cell.str "-") = some 60 ∧ (some (60 : Rat) ≠ some (0 : Rat)) := by
  constructor
  · decide
  · simp

/-- Claim C4 as amended: every conversion routine is total (a total function
of the embedding).  `DataPreprocessor.time_to_seconds` and
`FeatureEngineer._time_to_seconds` return `0.0` on every blank/sentinel token
(`"-"`, `"NULL"`, `"NaN"`, `""`, and missing values) and on every token for
which all parse attempts fail; `TireModelTrainer._lap_time_to_seconds`
instead returns `60.0` on blank, `"-"`, `"NULL"` and missing values, and
passes `"NaN"` through the numeric parse yielding `NaN`. -/
theorem C4_time_codec_amended :
    (time_to_seconds (Cell.str "-") = some 0 ∧ time_to_seconds (Cell.str "NULL") = some 0 ∧
      time_to_seconds (Cell.str "NaN") = some 0 ∧ time_to_seconds (Cell.str "") = some 0 ∧
      time_to_seconds Cell.null = some 0) ∧
    (fe_time_to_seconds (Cell.str "-") = some 0 ∧ fe_time_to_seconds (Cell.str "NULL") = some 0 ∧
      fe_time_to_seconds (Cell.str "NaN") = some 0 ∧ fe_time_to_seconds (Cell.str "") = some 0 ∧
      fe_time_to_seconds Cell.null = some 0) ∧
    (∀ s : String, parseAttemptsFail s = true → time_to_seconds (Cell.str s) = some 0) ∧
    (∀ s : String, feParseAttemptsFail s = true → fe_time_to_seconds (Cell.str s) = some 0) ∧
    (lap_time_to_seconds (Cell.str "-") = some 60 ∧
      lap_time_to_seconds (Cell.str "NULL") = some 60 ∧
      lap_time_to_seconds (Cell.str "") = some 60 ∧
      lap_time_to_seconds (Cell.str "NaN") = none ∧
      lap_time_to_seconds Cell.null = some 60) := by
  refine ⟨⟨by decide, by decide, by decide, by decide, by decide⟩,
    ⟨by decide, by decide, by decide, by decide, by decide⟩, ?_, ?_,
    ⟨by decide, by decide, by decide, by decide, by decide⟩⟩
  · intro s hs
    unfold parseAttemptsFail at hs
    unfold time_to_seconds time_to_seconds_str
    simp only [Bool.and_eq_true, String.toList] at hs
    simp only [String.toList]
    obtain ⟨h1, h2⟩ := hs
    by_cases hsent : isSentinelToken (pyStrip s.data)
    · simp [hsent]
    · simp only [hsent, Bool.false_eq_true, if_false]
      rw [Option.isNone_iff_eq_none] at h1
      rw [h1]
      by_cases hlen : (splitChar ':' (lstripPlusMinus (pyStrip s.data))).length = 2 ∨
          (splitChar ':' (lstripPlusMinus (pyStrip s.data))).length = 3
      · simp only [hlen, if_true] at h2 ⊢
        rw [Option.isNone_iff_eq_none] at h2
        rw [h2]
      · simp only [hlen, if_false] at h2 ⊢
        rw [Option.isNone_iff_eq_none] at h2
        rw [h2]
  · intro s hs
    unfold feParseAttemptsFail at hs
    unfold fe_time_to_seconds fe_time_to_seconds_str
    simp only [Bool.and_eq_true, String.toList] at hs
    simp only [String.toList]
    obtain ⟨h1, h2⟩ := hs
    by_cases hsent : isSentinelToken (pyStrip s.data)
    · simp [hsent]
    · simp only [hsent, Bool.false_eq_true, if_false]
      rw [Option.isNone_iff_eq_none] at h1
      rw [h1]
      by_cases hlen : (splitChar ':' (lstripPlus (pyStrip s.data))).length = 2 ∨
          (splitChar ':' (lstripPlus (pyStrip s.data))).length = 3
      · simp only [hlen, if_true] at h2 ⊢
        rw [Option.isNone_iff_eq_none] at h2
        rw [h2]
      · simp only [hlen, if_false] at h2 ⊢
        rw [Option.isNone_iff_eq_none] at h2
        rw [h2]

/-- Concrete instantiation of the two quantified parse-failure clauses of the
amended C4 theorem. -/
theorem C4_time_codec_amended_witness :
    parseAttemptsFail "abc" = true ∧ feParseAttemptsFail "abc" = true ∧
    time_to_seconds (Cell.str "abc") = some 0 ∧
    fe_time_to_seconds (Cell.str "abc") = some 0 :=
  ⟨by decide, by decide, C4_time_codec_amended.2.2.1 "abc" (by decide),
    C4_time_codec_amended.2.2.2.1 "abc" (by decide)⟩

/-! ## Claim C5: degradation-target clamp (corrected) -/

set_option maxHeartbeats 1000000 in
/-- Claim C5, counterexample: the claim states every produced target value
lies in `[0.001, 0.5]`, but with a current window averaging 10 s and a next
window of two laps averaging 12 s the produced `grip_loss_rate` is `1.0`. -/
theorem C5_counterexample :
    (calculate_degradation_targets curStint nextStint).grip_loss_rate = 1 ∧
      ¬((calculate_degradation_targets curStint nextStint).grip_loss_rate ≤ 1/2) := by
  have h : (calculate_degradation_targets curStint nextStint).grip_loss_rate = 1 := by
    simp only [calculate_degradation_targets, curStint, nextStint, stintRowOfTime, nmean,
      List.map, List.filterMap, id]
    norm_num
  refine ⟨h, ?_⟩
  rw [h]
  norm_num

theorem clamp_bounds (lo hi x : Rat) (h : lo ≤ hi) :
    lo ≤ max lo (min hi x) ∧ max lo (min hi x) ≤ hi :=
  ⟨le_max_left _ _, max_le h (min_le_left _ _)⟩

theorem sectorTarget_bounds (b1 b2 : Bool) (cur next : List Cell) (n : Nat) :
    1/1000 ≤ sectorTarget b1 b2 cur next n ∧ sectorTarget b1 b2 cur next n ≤ 1/2 := by
  unfold sectorTarget
  split
  case isTrue =>
    cases h1 : sector_mean cur with
    | none => norm_num
    | some ca =>
      cases h2 : sector_mean next with
      | none => norm_num
      | some na =>
        by_cases hc : 0 < ca
        · simp only [hc, if_true]
          exact clamp_bounds _ _ _ (by norm_num)
        · simp only [hc, if_false]
          norm_num
  case isFalse => norm_num

/-- Claim C5 as amended: the three per-sector targets always lie in the
clamped bound `[0.001, 0.5]` (defaults included), while the overall
`grip_loss_rate` is clamped to `[0.001, 1.0]` — its upper bound is `1.0`,
not `0.5`. -/
theorem C5_degradation_clamp_amended (cur next : StintDF) :
    (1/1000 ≤ (calculate_degradation_targets cur next).degradation_s1 ∧
      (calculate_degradation_targets cur next).degradation_s1 ≤ 1/2) ∧
    (1/1000 ≤ (calculate_degradation_targets cur next).degradation_s2 ∧
      (calculate_degradation_targets cur next).degradation_s2 ≤ 1/2) ∧
    (1/1000 ≤ (calculate_degradation_targets cur next).degradation_s3 ∧
      (calculate_degradation_targets cur next).degradation_s3 ≤ 1/2) ∧
    (1/1000 ≤ (calculate_degradation_targets cur next).grip_loss_rate ∧
      (calculate_degradation_targets cur next).grip_loss_rate ≤ 1) := by
  refine ⟨sectorTarget_bounds _ _ _ _ _, sectorTarget_bounds _ _ _ _ _,
    sectorTarget_bounds _ _ _ _ _, ?_⟩
  unfold calculate_degradation_targets
  simp only
  cases h1 : nmean (cur.rows.map (·.lap_time_seconds)) with
  | none => norm_num
  | some ca =>
    cases h2 : nmean (next.rows.map (·.lap_time_seconds)) with
    | none => norm_num
    | some na =>
      by_cases hc : 0 < ca ∧ 0 < na
      · simp only [hc, if_true]
        exact clamp_bounds _ _ _ (by norm_num)
      · simp only [hc, if_false]
        norm_num

/-! ## Claim C9: trainer minimum-track threshold (corrected) -/

/-- Claim C9, counterexample: the claim states a below-threshold trainer is
never called and never recorded as failed, but with a single valid track the
tire trainer is invoked and its `Insufficient tracks` error result is
recorded in the models dict. -/
theorem C9_counterexample :
    "tire" ∈ (train_models_with_processed_data trainerRestOk trainerRestOk trainerRestOk
        trainerRestOk [("trackA", ⟨false⟩)] []).2 ∧
      getAssoc (train_models_with_processed_data trainerRestOk trainerRestOk trainerRestOk
        trainerRestOk [("trackA", ⟨false⟩)] []).1 "tire_degradation" =
        some (.err "Insufficient tracks for tire model") := by
  constructor
  · decide
  · decide

/-- Claim C9 as amended: with fewer than 2 valid tracks the pit-strategy and
weather trainers are indeed never invoked and leave no (error) entry, and the
run continues; but the tire trainer is still invoked and its
below-threshold `Insufficient tracks` error result is recorded as a failed
model entry (the fuel trainer is likewise invoked unconditionally). -/
theorem C9_trainer_threshold_amended
    (tireRest fuelRun pitRun weatherRun : List (String × TrackData) → TrainResult)
    (pd : List (String × TrackData)) (existing : List (String × ModelEntry))
    (hlt : (pd.filter fun p => !p.2.pitEmpty).length < 2) :
    ("pit" ∉ (train_models_with_processed_data tireRest fuelRun pitRun weatherRun pd existing).2 ∧
     "weather" ∉
       (train_models_with_processed_data tireRest fuelRun pitRun weatherRun pd existing).2 ∧
     getAssoc (train_models_with_processed_data tireRest fuelRun pitRun weatherRun pd existing).1
       "pit_strategy" = getAssoc existing "pit_strategy" ∧
     getAssoc (train_models_with_processed_data tireRest fuelRun pitRun weatherRun pd existing).1
       "weather_impact" = getAssoc existing "weather_impact") ∧
    ((pd.filter fun p => !p.2.pitEmpty) ≠ [] →
      "tire" ∈ (train_models_with_processed_data tireRest fuelRun pitRun weatherRun pd existing).2 ∧
      getAssoc (train_models_with_processed_data tireRest fuelRun pitRun weatherRun pd existing).1
        "tire_degradation" = some (.err "Insufficient tracks for tire model")) := by
  unfold train_models_with_processed_data
  by_cases hv : (pd.filter fun p => !p.2.pitEmpty).isEmpty
  · simp only [hv, if_true]
    refine ⟨⟨?_, ?_, trivial, trivial⟩, ?_⟩
    · simp
    · simp
    · intro hne
      exact absurd (List.isEmpty_iff.mp hv) hne
  · simp only [hv, Bool.false_eq_true, if_false]
    have hnotle : ¬(2 ≤ (pd.filter fun p => !p.2.pitEmpty).length) := by omega
    simp only [hnotle, if_false]
    refine ⟨⟨?_, ?_, ?_, ?_⟩, ?_⟩
    · decide
    · decide
    · rw [getAssoc_setAssoc_ne _ _ _ _ (by decide), getAssoc_setAssoc_ne _ _ _ _ (by decide)]
    · rw [getAssoc_setAssoc_ne _ _ _ _ (by decide), getAssoc_setAssoc_ne _ _ _ _ (by decide)]
    · intro _
      refine ⟨?_, ?_⟩
      · decide
      · rw [getAssoc_setAssoc_ne _ _ _ _ (by decide), getAssoc_setAssoc_self]
        unfold tire_train
        simp only [hlt, if_true]
        rfl

/-- Concrete instantiation of the amended C9 theorem: one valid track. -/
theorem C9_trainer_threshold_amended_witness :
    (([("trackA", (⟨false⟩ : TrackData))].filter fun p => !p.2.pitEmpty).length < 2) ∧
      "pit" ∉ (train_models_with_processed_data trainerRestOk trainerRestOk trainerRestOk
        trainerRestOk [("trackA", ⟨false⟩)] []).2 :=
  ⟨by decide, (C9_trainer_threshold_amended trainerRestOk trainerRestOk trainerRestOk
    trainerRestOk [("trackA", ⟨false⟩)] [] (by decide)).1.1⟩

/-! ## Claim C8: vehicle-id derivation round-trip (confirmed) -/

theorem digitChar_isDigit (m : Nat) (h : m < 10) : (Char.ofNat (m + 48)).isDigit = true := by
  interval_cases m <;> decide

theorem digitChar_toNat (m : Nat) (h : m < 10) : (Char.ofNat (m + 48)).toNat = m + 48 := by
  interval_cases m <;> decide

theorem natDigits_all_digit (n : Nat) : ∀ c ∈ natDigits n, c.isDigit = true := by
  induction n using Nat.strong_induction_on with
  | _ n ih =>
    rw [natDigits]
    split
    case isTrue h =>
      intro c hc
      simp only [List.mem_singleton] at hc
      subst hc
      exact digitChar_isDigit n h
    case isFalse h =>
      intro c hc
      rcases List.mem_append.mp hc with h1 | h2
      · exact ih (n / 10) (Nat.div_lt_self (by omega) (by omega)) c h1
      · simp only [List.mem_singleton] at h2
        subst h2
        exact digitChar_isDigit (n % 10) (Nat.mod_lt _ (by omega))

theorem natDigits_ne_nil (n : Nat) : natDigits n ≠ [] := by
  rw [natDigits]
  split
  · simp
  · simp

theorem digitsVal_append_singleton (cs : List Char) (c : Char) :
    digitsVal (cs ++ [c]) = digitsVal cs * 10 + (c.toNat - '0'.toNat) := by
  unfold digitsVal
  rw [List.foldl_append]
  rfl

theorem digitsVal_natDigits (n : Nat) : digitsVal (natDigits n) = n := by
  induction n using Nat.strong_induction_on with
  | _ n ih =>
    rw [natDigits]
    split
    case isTrue h =>
      unfold digitsVal
      simp only [List.foldl_cons, List.foldl_nil]
      rw [digitChar_toNat n h]
      simp
    case isFalse h =>
      rw [digitsVal_append_singleton, ih (n / 10) (Nat.div_lt_self (by omega) (by omega)),
        digitChar_toNat (n % 10) (Nat.mod_lt _ (by omega))]
      have : '0'.toNat = 48 := by decide
      rw [this]
      omega

theorem digitsVal_zero_cons (cs : List Char) : digitsVal ('0' :: cs) = digitsVal cs := by
  unfold digitsVal
  simp only [List.foldl_cons]
  norm_num

theorem digitsVal_replicate_zero (k : Nat) (cs : List Char) :
    digitsVal (List.replicate k '0' ++ cs) = digitsVal cs := by
  induction k with
  | zero => simp
  | succ k ih =>
    rw [List.replicate_succ, List.cons_append, digitsVal_zero_cons, ih]

theorem splitChar_ne_nil (sep : Char) (xs : List Char) : splitChar sep xs ≠ [] := by
  cases xs with
  | nil => simp [splitChar]
  | cons c rest =>
    unfold splitChar
    cases splitChar sep rest with
    | nil => simp
    | cons h t =>
      by_cases hc : c = sep <;> simp [hc]

theorem splitChar_cons_sep (sep : Char) (rest : List Char) :
    splitChar sep (sep :: rest) = [] :: splitChar sep rest := by
  conv_lhs => rw [splitChar]
  rcases h : splitChar sep rest with _ | ⟨hh, tt⟩
  · exact absurd h (splitChar_ne_nil sep rest)
  · simp

theorem splitChar_cons_ne (sep c : Char) (rest : List Char) (hc : c ≠ sep)
    (hh : List Char) (tt : List (List Char)) (hr : splitChar sep rest = hh :: tt) :
    splitChar sep (c :: rest) = (c :: hh) :: tt := by
  conv_lhs => rw [splitChar]
  rw [hr]
  simp [hc]

theorem splitChar_no_sep (sep : Char) (xs : List Char) (h : sep ∉ xs) :
    splitChar sep xs = [xs] := by
  induction xs with
  | nil => rfl
  | cons c rest ih =>
    have hc : ¬c = sep := fun hh => h (hh ▸ List.mem_cons_self c rest)
    have hrest : sep ∉ rest := fun hm => h (List.mem_cons_of_mem _ hm)
    rw [splitChar_cons_ne sep c rest hc rest [] (ih hrest)]

theorem splitChar_append_sep (sep : Char) (xs ys : List Char) (h : sep ∉ xs) :
    splitChar sep (xs ++ sep :: ys) = xs :: splitChar sep ys := by
  induction xs with
  | nil =>
    simp only [List.nil_append]
    exact splitChar_cons_sep sep ys
  | cons c rest ih =>
    have hc : ¬c = sep := fun hh => h (hh ▸ List.mem_cons_self c rest)
    have hrest : sep ∉ rest := fun hm => h (List.mem_cons_of_mem _ hm)
    simp only [List.cons_append]
    rw [splitChar_cons_ne sep c (rest ++ sep :: ys) hc rest (splitChar sep ys) (ih hrest)]

/-- Claim C8: the vehicle identifier derived from a car number `n` by
`_add_vehicle_id_mapping` (`'GR86-' + str(n).zfill(3) + '-000'`) is mapped
back to `n` by the car-number extraction of the telemetry joiner, for every
non-negative integer `n`: the two identifier schemes reconcile to the same
key. -/
theorem C8_vehicle_id_round_trip (n : Nat) :
    extract_car_number (vehicle_id_of_number n) = n := by
  have hdig : ∀ c ∈ zfill 3 (natDigits n), c.isDigit = true := by
    intro c hc
    rcases List.mem_append.mp hc with h1 | h2
    · rw [List.eq_of_mem_replicate h1]
      decide
    · exact natDigits_all_digit n c h2
  have hnosep : '-' ∉ zfill 3 (natDigits n) := by
    intro hm
    have := hdig '-' hm
    simp at this
  have hrw : vehicle_id_of_number n =
      "GR86".toList ++ '-' :: (zfill 3 (natDigits n) ++ '-' :: "000".toList) := by
    unfold vehicle_id_of_number
    simp
  have hsplit : splitChar '-' (vehicle_id_of_number n) =
      ["GR86".toList, zfill 3 (natDigits n), "000".toList] := by
    rw [hrw, splitChar_append_sep _ _ _ (by decide),
      splitChar_append_sep _ _ _ hnosep, splitChar_no_sep _ _ (by decide)]
  have hmem : '-' ∈ vehicle_id_of_number n := by
    rw [hrw]
    exact List.mem_append.mpr (Or.inr (List.mem_cons_self _ _))
  have hcontains : (vehicle_id_of_number n).contains '-' = true := by
    simpa [List.contains] using hmem
  have hne : zfill 3 (natDigits n) ≠ [] := by
    unfold zfill
    intro hh
    rcases List.append_eq_nil.mp hh with ⟨_, h2⟩
    exact natDigits_ne_nil n h2
  unfold extract_car_number
  rw [hsplit]
  simp only [List.getD_cons_succ, List.getD_cons_zero]
  have hisdig : pyIsDigit (zfill 3 (natDigits n)) = true := by
    unfold pyIsDigit
    rw [Bool.and_eq_true]
    constructor
    · simpa [List.isEmpty_iff] using hne
    · rw [List.all_eq_true]
      intro c hc
      exact hdig c hc
  rw [hcontains, hisdig]
  simp only [Bool.and_self, if_true]
  unfold zfill
  rw [digitsVal_replicate_zero, digitsVal_natDigits]

/-! ## Claim C10: unrecognized vehicle ids aggregate under car number 0
(confirmed) -/

theorem aggregateBy_map_fst {κ β γ : Type} [DecidableEq κ] (f : List β → γ)
    (rows : List (κ × β)) : (aggregateBy f rows).map Prod.fst = groupKeys rows := by
  unfold aggregateBy groupRows
  generalize groupKeys rows = ks
  induction ks with
  | nil => rfl
  | cons k rest ih => simp_all

/-- Claim C10: a telemetry `vehicle_id` that contains no `'-'`, or whose
segment after the first `'-'` is not a non-empty digit string, extracts to
car number 0, and every such row still contributes its `(0, lap)` key to the
per-(car, lap) aggregation — grouped together under car 0 rather than dropped
or raising. -/
theorem C10_unrecognized_vehicle_id (x : List Char)
    (hx : x.contains '-' = false ∨ pyIsDigit ((splitChar '-' x).getD 1 []) = false) :
    extract_car_number x = 0 ∧
    ∀ (stdFn : List (Option Rat) → Option Rat) (rows : List TeleRow) (r : TeleRow),
      r ∈ rows → r.vehicle_id = x →
      teleKey r = ((0 : Rat), r.lap.getD 0) ∧
      teleKey r ∈
        (aggregateBy (aggTele stdFn) (rows.map fun q => (teleKey q, q))).map Prod.fst := by
  have h0 : extract_car_number x = 0 := by
    unfold extract_car_number
    rcases hx with h | h
    · simp only [h, Bool.false_and, Bool.false_eq_true, if_false]
    · simp only [h, Bool.and_false, Bool.false_eq_true, if_false]
  refine ⟨h0, ?_⟩
  intro stdFn rows r hr hid
  constructor
  · unfold teleKey
    rw [hid, h0]
    norm_num
  · rw [aggregateBy_map_fst]
    unfold groupKeys
    apply List.mem_dedup.mpr
    rw [List.map_map]
    exact List.mem_map.mpr ⟨r, hr, rfl⟩

/-- Concrete instantiation of C10 on the malformed id `"weird"`. -/
theorem C10_unrecognized_vehicle_id_witness :
    extract_car_number "weird".toList = 0 ∧
      teleKey ⟨"weird".toList, some 3, none, none, none, none⟩ =
        ((0 : Rat), (3 : Rat)) := by
  have h := C10_unrecognized_vehicle_id "weird".toList (by decide)
  refine ⟨h.1, ?_⟩
  have h2 := (h.2 (fun _ => none) [⟨"weird".toList, some 3, none, none, none, none⟩]
    ⟨"weird".toList, some 3, none, none, none, none⟩ (by decide) rfl).1
  simpa using h2

/-! ## Claim C3: joiner cardinality preservation (confirmed) -/

theorem filter_length_le_one_of_key {γ : Type} (l : List ((Rat × Rat) × γ))
    (hnd : (l.map Prod.fst).Nodup) (p : (Rat × Rat) × γ → Bool) (k : Rat × Rat)
    (hp : ∀ e, p e = true → e.1 = k) : (l.filter p).length ≤ 1 := by
  induction l with
  | nil => simp
  | cons e rest ih =>
    rw [List.map_cons, List.nodup_cons] at hnd
    by_cases hpe : p e = true
    · rw [List.filter_cons_of_pos hpe]
      have hrest : rest.filter p = [] := by
        rw [List.filter_eq_nil_iff]
        intro a ha hpa
        apply hnd.1
        rw [hp e hpe, ← hp a hpa]
        exact List.mem_map_of_mem Prod.fst ha
      rw [hrest]
      simp
    · rw [List.filter_cons_of_neg hpe]
      exact ih hnd.2

theorem leftJoinRow_map_fst {β γ : Type} (agg : List ((Rat × Rat) × γ))
    (hnd : (agg.map Prod.fst).Nodup) (r : PitRow β) :
    (leftJoinRow agg r).map Prod.fst = [r] := by
  have hp : ∀ e : (Rat × Rat) × γ, pitKeyMatches r e.1 = true →
      e.1 = (r.number.getD 0, r.lap_number.getD 0) := by
    rintro ⟨⟨k1, k2⟩, v⟩ he
    unfold pitKeyMatches at he
    rw [Bool.and_eq_true] at he
    obtain ⟨h1, h2⟩ := he
    have h1' : r.number = some k1 := of_decide_eq_true h1
    have h2' : r.lap_number = some k2 := of_decide_eq_true h2
    simp [h1', h2']
  have hlen := filter_length_le_one_of_key agg hnd (fun e => pitKeyMatches r e.1) _ hp
  unfold leftJoinRow
  rcases hms : agg.filter (fun e => pitKeyMatches r e.1) with _ | ⟨e, rest⟩
  · simp [hms]
  · rw [hms] at hlen
    simp only [List.length_cons] at hlen
    have hrest : rest = [] := List.length_eq_zero.mp (by omega)
    subst hrest
    simp [hms]

theorem merge_left_map_fst {β γ : Type} (pit : List (PitRow β))
    (agg : List ((Rat × Rat) × γ)) (hnd : (agg.map Prod.fst).Nodup) :
    (merge_left pit agg).map Prod.fst = pit := by
  induction pit with
  | nil => rfl
  | cons r rest ih =>
    unfold merge_left at ih ⊢
    rw [List.flatMap_cons, List.map_append, leftJoinRow_map_fst agg hnd r, ih]
    rfl

/-- Claim C3: the left join of the pit rows with the per-(car, lap) telemetry
aggregate produces exactly one output row per pit row, in order — no pit row
is duplicated or dropped — and a pit row matching no aggregate entry is kept
with a missing aggregate (`none`, pandas NaN fill). -/
theorem C3_joiner_cardinality {β : Type} (stdFn : List (Option Rat) → Option Rat)
    (pit : List (PitRow β)) (telemetry : List TeleRow) :
    (add_telemetry_tire_features stdFn pit telemetry).map Prod.fst = pit ∧
    (add_telemetry_tire_features stdFn pit telemetry).length = pit.length ∧
    ∀ r ∈ pit,
      (∀ e ∈ aggregateBy (aggTele stdFn) (telemetry.map fun q => (teleKey q, q)),
        pitKeyMatches r e.1 = false) →
      (r, (none : Option TeleAgg)) ∈ add_telemetry_tire_features stdFn pit telemetry := by
  have hnd : ((aggregateBy (aggTele stdFn)
      (telemetry.map fun q => (teleKey q, q))).map Prod.fst).Nodup := by
    rw [aggregateBy_map_fst]
    exact List.nodup_dedup _
  refine ⟨merge_left_map_fst _ _ hnd, ?_, ?_⟩
  · have h := congrArg List.length (merge_left_map_fst pit _ hnd)
    simpa using h
  · intro r hr hum
    unfold add_telemetry_tire_features merge_left
    apply List.mem_flatMap.mpr
    refine ⟨r, hr, ?_⟩
    unfold leftJoinRow
    have hms : (aggregateBy (aggTele stdFn) (telemetry.map fun q => (teleKey q, q))).filter
        (fun e => pitKeyMatches r e.1) = [] := by
      rw [List.filter_eq_nil_iff]
      intro e he
      simp [hum e he]
    simp [hms]

/-- Concrete instantiation of C3: one pit row, no telemetry. -/
theorem C3_joiner_cardinality_witness :
    (⟨some 5, some 1, (0 : Rat)⟩, (none : Option TeleAgg)) ∈
      add_telemetry_tire_features (fun _ => none) [⟨some 5, some 1, (0 : Rat)⟩] [] :=
  (C3_joiner_cardinality (fun _ => none) [⟨some 5, some 1, (0 : Rat)⟩] []).2.2
    ⟨some 5, some 1, (0 : Rat)⟩ (by simp) (by simp [aggregateBy, groupRows, groupKeys])

/-! ## Claim C6: feature-vector dimensional consistency (corrected) -/

theorem track_conditions_names (w : WeatherDF) (track : String) :
    (calculate_track_conditions w track).map Prod.fst =
      ["track_abrasiveness", "track_length_factor", "avg_track_temp", "track_temp_variance",
       "avg_air_temp", "humidity_level", "pressure_level"] := by
  unfold calculate_track_conditions
  by_cases h : w.isEmpty <;> simp [h, get_fallback_weather_conditions]

theorem driving_factors_names (nums : List (Option Rat)) (tele : TeleDF) (car : Nat) :
    (calculate_driving_factors nums tele car).map Prod.fst =
      ["estimated_lateral_force", "estimated_braking_force", "driving_aggressiveness",
       "gear_usage_efficiency"] := by
  unfold calculate_driving_factors
  simp

theorem fallback_feature_names (track : String) (n : Nat) :
    (get_fallback_features track n).map Prod.fst =
      ["lap_time_degradation_slope", "lap_time_consistency", "sector_1_degradation_slope",
       "sector_2_degradation_slope", "sector_3_degradation_slope", "avg_top_speed", "avg_kph",
       "lap_improvement_ratio", "caution_flag_ratio", "lap_time_variance",
       "performance_consistency", "track_abrasiveness", "track_length_factor", "stint_length",
       "cumulative_laps", "avg_track_temp", "track_temp_variance", "avg_air_temp",
       "humidity_level", "pressure_level", "estimated_lateral_force", "estimated_braking_force",
       "driving_aggressiveness", "gear_usage_efficiency"] := by
  unfold get_fallback_features get_fallback_weather_conditions
  simp

/-- Claim C6, counterexample: the claim states the emitted feature record has
the same fixed name set whether the normal path or the exception-fallback
path is taken, but the normal path emits `car_number` and
`_get_fallback_features` does not. -/
theorem C6_counterexample :
    "car_number" ∈ (calculate_stint_features trendZero curStint teleEmpty weatherEmpty
      "t" 7).map Prod.fst ∧
    "car_number" ∉ (get_fallback_features "t" 2).map Prod.fst := by
  constructor
  · rw [show (calculate_stint_features trendZero curStint teleEmpty weatherEmpty "t" 7).map
        Prod.fst = declared_feature_names from ?_]
    · decide
    · unfold calculate_stint_features
      rw [if_neg (by decide)]
      simp [List.map_append, track_conditions_names, driving_factors_names,
        declared_feature_names]
  · rw [fallback_feature_names]
    decide

/-- Claim C6 as amended: on every non-empty stint the normal path emits
exactly the declared fixed feature-name list (in order), regardless of which
telemetry, weather or sector columns are present — missing inputs are
defaulted under the declared names; the exception-fallback path emits the same
fixed name set except that it lacks `car_number`. -/
theorem C6_dimensional_consistency_amended
    (trendFn : List (Option Rat) → List (Option Rat) → Rat × Rat)
    (stint : StintDF) (tele : TeleDF) (weather : WeatherDF) (track : String) (car : Nat)
    (h : stint.rows ≠ []) :
    (calculate_stint_features trendFn stint tele weather track car).map Prod.fst =
      declared_feature_names ∧
    ((get_fallback_features track stint.rows.length).map Prod.fst).toFinset =
      declared_feature_names.toFinset.erase "car_number" := by
  constructor
  · unfold calculate_stint_features
    rw [if_neg (by simp [List.isEmpty_iff, h])]
    simp [List.map_append, track_conditions_names, driving_factors_names, declared_feature_names]
  · rw [fallback_feature_names]
    decide

/-- Concrete instantiation of the amended C6 theorem. -/
theorem C6_dimensional_consistency_amended_witness :
    curStint.rows ≠ [] ∧
      (calculate_stint_features trendZero curStint teleEmpty weatherEmpty "t" 7).map Prod.fst =
        declared_feature_names :=
  ⟨by decide, (C6_dimensional_consistency_amended trendZero curStint teleEmpty weatherEmpty
    "t" 7 (by decide)).1⟩

theorem getAssoc_append_of_none {α : Type} (l m : List (String × α)) (k : String)
    (h : getAssoc l k = none) : getAssoc (l ++ m) k = getAssoc m k := by
  induction l with
  | nil => rfl
  | cons p rest ih =>
    by_cases hp : p.1 = k
    · simp [getAssoc, hp] at h
    · simp [getAssoc, hp] at h ⊢
      exact ih h

theorem getAssoc_cacheOf_of_not_mem {α : Type} (process : ProcessFn α) (ts : List String)
    (t : String) (h : t ∉ ts) : getAssoc (cacheOf process ts) t = none := by
  induction ts with
  | nil => rfl
  | cons x rest ih =>
    have hx : t ≠ x := fun hh => h (hh ▸ List.mem_cons_self x rest)
    have hrest : t ∉ rest := fun hm => h (List.mem_cons_of_mem _ hm)
    unfold cacheOf at ih ⊢
    simp only [List.filterMap_cons]
    cases hv : process x with
    | none => exact ih hrest
    | some v =>
      simp only [Option.map_some']
      simpa [getAssoc, Ne.symm hx] using ih hrest

theorem getAssoc_okAssoc_of_not_mem {α : Type} (process : ProcessFn α) (ts : List String)
    (t : String) (h : t ∉ ts) : getAssoc (okAssoc process ts) t = none := by
  induction ts with
  | nil => rfl
  | cons x rest ih =>
    have hx : t ≠ x := fun hh => h (hh ▸ List.mem_cons_self x rest)
    have hrest : t ∉ rest := fun hm => h (List.mem_cons_of_mem _ hm)
    unfold okAssoc at ih ⊢
    simp only [List.filterMap_cons]
    cases hv : (process x).bind id with
    | none => exact ih hrest
    | some d =>
      simp only [Option.map_some']
      simpa [getAssoc, Ne.symm hx] using ih hrest

theorem getAssoc_cacheOf_of_mem {α : Type} (process : ProcessFn α) (ts : List String)
    (t : String) (hnd : ts.Nodup) (h : t ∈ ts) :
    getAssoc (cacheOf process ts) t = process t := by
  induction ts with
  | nil => simp at h
  | cons x rest ih =>
    rw [List.nodup_cons] at hnd
    unfold cacheOf at ih ⊢
    simp only [List.filterMap_cons]
    rcases List.mem_cons.mp h with rfl | hmem
    · cases hv : process t with
      | none =>
        simp only [Option.map_none']
        exact getAssoc_cacheOf_of_not_mem process rest t hnd.1
      | some v => simp [getAssoc]
    · have hx : t ≠ x := fun hh => hnd.1 (hh ▸ hmem)
      cases hv : process x with
      | none => exact ih hnd.2 hmem
      | some v =>
        simp only [Option.map_some']
        simpa [getAssoc, Ne.symm hx] using ih hnd.2 hmem

theorem okAssoc_append {α : Type} (process : ProcessFn α) (xs ys : List String) :
    okAssoc process (xs ++ ys) = okAssoc process xs ++ okAssoc process ys :=
  List.filterMap_append xs ys _

theorem cacheOf_append {α : Type} (process : ProcessFn α) (xs ys : List String) :
    cacheOf process (xs ++ ys) = cacheOf process xs ++ cacheOf process ys :=
  List.filterMap_append xs ys _

theorem okAssoc_singleton_none {α : Type} (process : ProcessFn α) (t : String)
    (h : (process t).bind id = none) : okAssoc process [t] = [] := by
  unfold okAssoc
  simp only [List.filterMap_cons, List.filterMap_nil, h, Option.map_none']

theorem okAssoc_singleton_some {α : Type} (process : ProcessFn α) (t : String) (d : α)
    (h : (process t).bind id = some d) : okAssoc process [t] = [(t, d)] := by
  unfold okAssoc
  simp only [List.filterMap_cons, List.filterMap_nil, h, Option.map_some']

theorem cacheOf_singleton_none {α : Type} (process : ProcessFn α) (t : String)
    (h : process t = none) : cacheOf process [t] = [] := by
  unfold cacheOf
  simp only [List.filterMap_cons, List.filterMap_nil, h, Option.map_none']

theorem cacheOf_singleton_some {α : Type} (process : ProcessFn α) (t : String) (v : Option α)
    (h : process t = some v) : cacheOf process [t] = [(t, v)] := by
  unfold cacheOf
  simp only [List.filterMap_cons, List.filterMap_nil, h, Option.map_some']

/-- Characterization of the per-track loop started from a fresh state. -/
theorem runLoop_fresh {α : Type} (process : ProcessFn α) (ts : List String)
    (hnd : ts.Nodup) :
    runLoop process ⟨freshState α, [], [], []⟩ ts =
      ⟨⟨(okAssoc process ts).map Prod.fst, (okAssoc process ts).map Prod.fst,
        cacheOf process ts, [], false⟩, okAssoc process ts,
        (okAssoc process ts).map Prod.fst, ts⟩ := by
  induction ts using List.reverseRecOn with
  | nil => rfl
  | append_singleton xs t ih =>
    have hnd' : xs.Nodup := hnd.sublist (by simp)
    have htx : t ∉ xs := by
      have := List.nodup_append.mp hnd
      intro hm
      exact (this.2.2 hm) (List.mem_singleton_self t)
    unfold runLoop at ih ⊢
    rw [List.foldl_append, ih hnd']
    simp only [List.foldl_cons, List.foldl_nil]
    unfold stepTrack
    simp only [getAssoc_cacheOf_of_not_mem process xs t htx]
    cases hv : process t with
    | none =>
      dsimp only
      rw [okAssoc_append, cacheOf_append, okAssoc_singleton_none process t (by simp [hv]),
        cacheOf_singleton_none process t hv]
      simp
    | some v =>
      cases v with
      | none =>
        dsimp only
        rw [okAssoc_append, cacheOf_append, okAssoc_singleton_none process t (by simp [hv]),
          cacheOf_singleton_some process t none hv,
          setAssoc_append_of_absent _ _ _ (getAssoc_cacheOf_of_not_mem process xs t htx)]
        simp
      | some d =>
        dsimp only [applySuccess]
        have hcache1 : setAssoc (cacheOf process xs) t (some d) =
            cacheOf process xs ++ [(t, some d)] :=
          setAssoc_append_of_absent _ _ _ (getAssoc_cacheOf_of_not_mem process xs t htx)
        have hcache2 : setAssoc (cacheOf process xs ++ [(t, some d)]) t (some d) =
            cacheOf process xs ++ [(t, some d)] := by
          apply setAssoc_eq_self_of_getAssoc
          rw [getAssoc_append_of_none _ _ _ (getAssoc_cacheOf_of_not_mem process xs t htx)]
          simp [getAssoc]
        rw [okAssoc_append, cacheOf_append, okAssoc_singleton_some process t d (by simp [hv]),
          cacheOf_singleton_some process t (some d) hv,
          setAssoc_append_of_absent _ _ _ (getAssoc_okAssoc_of_not_mem process xs t htx),
          hcache1, hcache2]
        simp [List.map_append]

theorem mem_okKeys_iff {α : Type} (process : ProcessFn α) (xs : List String) (t : String) :
    t ∈ (okAssoc process xs).map Prod.fst ↔
      t ∈ xs ∧ ∃ d, (process t).bind id = some d := by
  unfold okAssoc
  constructor
  · intro h
    obtain ⟨⟨t', d⟩, hp, rfl⟩ := List.mem_map.mp h
    obtain ⟨x, hx, hfx⟩ := List.mem_filterMap.mp hp
    cases hb : (process x).bind id with
    | none => rw [hb] at hfx; simp at hfx
    | some e =>
      rw [hb] at hfx
      simp only [Option.map_some', Option.some_inj, Prod.mk.injEq] at hfx
      obtain ⟨rfl, rfl⟩ := hfx
      exact ⟨hx, e, hb⟩
  · rintro ⟨hmem, d, hd⟩
    apply List.mem_map.mpr
    refine ⟨(t, d), List.mem_filterMap.mpr ⟨t, hmem, ?_⟩, rfl⟩
    rw [hd]
    rfl

theorem okKeys_filterMap {α : Type} (process : ProcessFn α) (xs : List String) :
    ((okAssoc process xs).map Prod.fst).filterMap
      (fun t => ((process t).bind id).map fun d => (t, d)) = okAssoc process xs := by
  induction xs with
  | nil => rfl
  | cons x rest ih =>
    unfold okAssoc
    simp only [List.filterMap_cons]
    cases hv : (process x).bind id with
    | none =>
      unfold okAssoc at ih
      exact ih
    | some d =>
      simp only [Option.map_some', List.map_cons, List.filterMap_cons, hv]
      unfold okAssoc at ih
      rw [ih]

theorem load_fresh_char {α : Type} (process : ProcessFn α) (xs : List String)
    (hnd : xs.Nodup) :
    load_processed_data_state
      (⟨(okAssoc process xs).map Prod.fst, (okAssoc process xs).map Prod.fst,
        cacheOf process xs, [], false⟩ : OrchState α) = okAssoc process xs := by
  unfold load_processed_data_state
  simp only
  rw [List.filterMap_congr (g := fun t => ((process t).bind id).map fun d => (t, d)) ?_]
  · exact okKeys_filterMap process xs
  · intro t ht
    have htmem : t ∈ xs := ((mem_okKeys_iff process xs t).mp ht).1
    rw [getAssoc_cacheOf_of_mem process xs t hnd htmem]

theorem stepTrack_proj {α : Type} (process : ProcessFn α) (x : String) (s : OrchState α)
    (A : List (String × α)) (P ia ib : List String) :
    (stepTrack process ⟨s, A, P, ia⟩ x).st = (stepTrack process ⟨s, A, P, ib⟩ x).st ∧
    (stepTrack process ⟨s, A, P, ia⟩ x).apd = (stepTrack process ⟨s, A, P, ib⟩ x).apd ∧
    (stepTrack process ⟨s, A, P, ia⟩ x).pt = (stepTrack process ⟨s, A, P, ib⟩ x).pt := by
  unfold stepTrack applySuccess
  cases hg : getAssoc s.cache x with
  | some v => cases v <;> simp
  | none =>
    cases hv : process x with
    | none => simp
    | some v => cases v <;> simp

theorem runLoop_proj {α : Type} (process : ProcessFn α) (ts : List String)
    (a b : LoopAcc α) (hst : a.st = b.st) (hapd : a.apd = b.apd) (hpt : a.pt = b.pt) :
    (runLoop process a ts).st = (runLoop process b ts).st ∧
    (runLoop process a ts).apd = (runLoop process b ts).apd ∧
    (runLoop process a ts).pt = (runLoop process b ts).pt := by
  induction ts generalizing a b with
  | nil => exact ⟨hst, hapd, hpt⟩
  | cons x rest ih =>
    obtain ⟨sa, Aa, Pa, ia⟩ := a
    obtain ⟨sb, Ab, Pb, ib⟩ := b
    simp only at hst hapd hpt
    subst hst hapd hpt
    have hs := stepTrack_proj process x sa Aa Pa ia ib
    unfold runLoop at ih ⊢
    simp only [List.foldl_cons]
    exact ih (stepTrack process ⟨sa, Aa, Pa, ia⟩ x) (stepTrack process ⟨sa, Aa, Pa, ib⟩ x)
      hs.1 hs.2.1 hs.2.2

theorem runLoop_bad {α : Type} (process : ProcessFn α) (xs : List String) (hnd : xs.Nodup)
    (ts : List String) (hts : ∀ t ∈ ts, t ∈ xs ∧ (process t).bind id = none)
    (a : LoopAcc α) (hc : a.st.cache = cacheOf process xs) :
    (runLoop process a ts).st = a.st ∧ (runLoop process a ts).apd = a.apd ∧
    (runLoop process a ts).pt = a.pt := by
  induction ts generalizing a with
  | nil => exact ⟨rfl, rfl, rfl⟩
  | cons t rest ih =>
    obtain ⟨hmem, hbad⟩ := hts t (List.mem_cons_self t rest)
    have hga : getAssoc a.st.cache t = process t := by
      rw [hc]
      exact getAssoc_cacheOf_of_mem process xs t hnd hmem
    have hstep : (stepTrack process a t).st = a.st ∧ (stepTrack process a t).apd = a.apd ∧
        (stepTrack process a t).pt = a.pt := by
      unfold stepTrack
      cases hv : process t with
      | none =>
        rw [hga, hv]
        simp
      | some v =>
        cases v with
        | none =>
          rw [hga, hv]
          simp
        | some d =>
          rw [hv] at hbad
          simp at hbad
    have hrest : ∀ u ∈ rest, u ∈ xs ∧ (process u).bind id = none :=
      fun u hu => hts u (List.mem_cons_of_mem t hu)
    unfold runLoop at ih ⊢
    simp only [List.foldl_cons]
    have hc' : (stepTrack process a t).st.cache = cacheOf process xs := by
      rw [hstep.1, hc]
    obtain ⟨h1, h2, h3⟩ := ih hrest (stepTrack process a t) hc'
    exact ⟨h1.trans hstep.1, h2.trans hstep.2.1, h3.trans hstep.2.2⟩

theorem train_all_models_completed {α : Type}
    (tm : List (String × α) → List String → List String) (available : List String)
    (process : ProcessFn α) (s : OrchState α) (h : s.completed = true) :
    train_all_models tm available process s = ⟨s, [], [], [], .completedEarly⟩ := by
  unfold train_all_models
  rw [h]
  rfl

theorem train_all_models_loop_char {α : Type}
    (tm : List (String × α) → List String → List String) (available : List String)
    (process : ProcessFn α) (s : OrchState α) (h1 : s.completed = false)
    (h2 : available.isEmpty = false)
    (h3 : (available.filter fun t => !(s.processedTracks.contains t)).isEmpty = false) :
    train_all_models tm available process s =
      (let remaining := available.filter fun t => !(s.processedTracks.contains t)
       let r := runLoop process ⟨s, load_processed_data_state s, s.processedTracks, []⟩ remaining
       if r.apd.isEmpty then (⟨r.st, [], remaining, r.invoked, .noData⟩ : RunOut α)
       else
         ⟨{ r.st with
              processedTracks := r.pt
              processedDataKeys := r.apd.map Prod.fst
              modelKeys := tm r.apd s.modelKeys
              completed := decide (r.pt.length = available.length) },
           r.apd, remaining, r.invoked, .trained⟩) := by
  unfold train_all_models
  simp only [h1, h2, h3, Bool.false_eq_true, if_false]

theorem train_all_models_aggregate {α : Type}
    (tm : List (String × α) → List String → List String) (available : List String)
    (process : ProcessFn α) (s : OrchState α) (h1 : s.completed = false)
    (h2 : available.isEmpty = false)
    (h3 : (available.filter fun t => !(s.processedTracks.contains t)).isEmpty = false) :
    (train_all_models tm available process s).aggregate =
      (runLoop process ⟨s, load_processed_data_state s, s.processedTracks, []⟩
        (available.filter fun t => !(s.processedTracks.contains t))).apd := by
  rw [train_all_models_loop_char tm available process s h1 h2 h3]
  simp only
  by_cases he : (runLoop process ⟨s, load_processed_data_state s, s.processedTracks, []⟩
      (available.filter fun t => !(s.processedTracks.contains t))).apd.isEmpty
  · rw [if_pos he]
    simp only
    exact (List.isEmpty_iff.mp he).symm
  · rw [if_neg he]

theorem train_all_models_iterated {α : Type}
    (tm : List (String × α) → List String → List String) (available : List String)
    (process : ProcessFn α) (s : OrchState α) (h1 : s.completed = false)
    (h3 : (available.filter fun t => !(s.processedTracks.contains t)).isEmpty = false) :
    (train_all_models tm available process s).iterated =
      available.filter fun t => !(s.processedTracks.contains t) := by
  unfold train_all_models
  by_cases h2 : available.isEmpty
  · exfalso
    rw [List.isEmpty_iff.mp h2] at h3
    simp at h3
  · rw [Bool.not_eq_true] at h2
    simp only [h1, h2, h3, Bool.false_eq_true, if_false]
    by_cases he : (runLoop process ⟨s, load_processed_data_state s, s.processedTracks, []⟩
        (available.filter fun t => !(s.processedTracks.contains t))).apd.isEmpty
    · rw [if_pos he]
    · rw [if_neg he]

theorem stepTrack_invoked {α : Type} (process : ProcessFn α) (a : LoopAcc α) (t : String) :
    (stepTrack process a t).invoked = a.invoked ∨
      (stepTrack process a t).invoked = a.invoked ++ [t] := by
  unfold stepTrack
  cases h : getAssoc a.st.cache t with
  | none =>
    cases hv : process t with
    | none => exact Or.inr rfl
    | some o =>
      cases o with
      | none => exact Or.inr rfl
      | some d => exact Or.inr (by dsimp only [applySuccess])
  | some o =>
    cases o with
    | none => exact Or.inl rfl
    | some d => exact Or.inl (by dsimp only [applySuccess])

theorem runLoop_invoked_mem {α : Type} (process : ProcessFn α) (ts : List String)
    (a : LoopAcc α) (x : String) (hx : x ∈ (runLoop process a ts).invoked) :
    x ∈ a.invoked ∨ x ∈ ts := by
  induction ts generalizing a with
  | nil => exact Or.inl hx
  | cons t rest ih =>
    unfold runLoop at hx ih
    simp only [List.foldl_cons] at hx
    rcases ih (stepTrack process a t) hx with h | h
    · rcases stepTrack_invoked process a t with he | he
      · rw [he] at h
        exact Or.inl h
      · rw [he, List.mem_append, List.mem_singleton] at h
        rcases h with h | h
        · exact Or.inl h
        · exact Or.inr (h ▸ List.mem_cons_self t rest)
    · exact Or.inr (List.mem_cons_of_mem t h)

theorem stepTrack_pt {α : Type} (process : ProcessFn α) (a : LoopAcc α) (t : String) :
    (stepTrack process a t).pt = a.pt ∨ (stepTrack process a t).pt = a.pt ++ [t] := by
  unfold stepTrack
  cases h : getAssoc a.st.cache t with
  | none =>
    cases hv : process t with
    | none => exact Or.inl rfl
    | some o =>
      cases o with
      | none => exact Or.inl rfl
      | some d => exact Or.inr (by dsimp only [applySuccess])
  | some o =>
    cases o with
    | none => exact Or.inl rfl
    | some d => exact Or.inr (by dsimp only [applySuccess])

theorem runLoop_pt_mem {α : Type} (process : ProcessFn α) (ts : List String)
    (a : LoopAcc α) (x : String) (hx : x ∈ (runLoop process a ts).pt) :
    x ∈ a.pt ∨ x ∈ ts := by
  induction ts generalizing a with
  | nil => exact Or.inl hx
  | cons t rest ih =>
    unfold runLoop at hx ih
    simp only [List.foldl_cons] at hx
    rcases ih (stepTrack process a t) hx with h | h
    · rcases stepTrack_pt process a t with he | he
      · rw [he] at h
        exact Or.inl h
      · rw [he, List.mem_append, List.mem_singleton] at h
        rcases h with h | h
        · exact Or.inl h
        · exact Or.inr (h ▸ List.mem_cons_self t rest)
    · exact Or.inr (List.mem_cons_of_mem t h)

theorem stepTrack_sync {α : Type} (process : ProcessFn α) (a : LoopAcc α) (t : String)
    (h1 : a.st.processedTracks = a.pt)
    (h2 : a.st.processedDataKeys = a.apd.map Prod.fst) :
    (stepTrack process a t).st.processedTracks = (stepTrack process a t).pt ∧
      (stepTrack process a t).st.processedDataKeys =
        ((stepTrack process a t).apd.map Prod.fst) := by
  unfold stepTrack
  cases h : getAssoc a.st.cache t with
  | none =>
    cases hv : process t with
    | none => exact ⟨h1, h2⟩
    | some o =>
      cases o with
      | none => exact ⟨h1, h2⟩
      | some d => exact ⟨by dsimp only [applySuccess], by dsimp only [applySuccess]⟩
  | some o =>
    cases o with
    | none => exact ⟨h1, h2⟩
    | some d => exact ⟨by dsimp only [applySuccess], by dsimp only [applySuccess]⟩

theorem runLoop_sync {α : Type} (process : ProcessFn α) (ts : List String)
    (a : LoopAcc α)
    (h1 : a.st.processedTracks = a.pt)
    (h2 : a.st.processedDataKeys = a.apd.map Prod.fst) :
    (runLoop process a ts).st.processedTracks = (runLoop process a ts).pt ∧
      (runLoop process a ts).st.processedDataKeys =
        ((runLoop process a ts).apd.map Prod.fst) := by
  induction ts generalizing a with
  | nil => exact ⟨h1, h2⟩
  | cons t rest ih =>
    unfold runLoop at ih ⊢
    simp only [List.foldl_cons]
    obtain ⟨g1, g2⟩ := stepTrack_sync process a t h1 h2
    exact ih (stepTrack process a t) g1 g2

theorem runLoop_cons {α : Type} (process : ProcessFn α) (a : LoopAcc α) (x : String)
    (ts : List String) :
    runLoop process a (x :: ts) = runLoop process (stepTrack process a x) ts := rfl

theorem stepTrack_cache_get_ne {α : Type} (process : ProcessFn α) (a : LoopAcc α)
    (x t : String) (hne : t ≠ x) :
    getAssoc (stepTrack process a x).st.cache t = getAssoc a.st.cache t := by
  unfold stepTrack applySuccess
  cases hg : getAssoc a.st.cache x with
  | some v =>
    cases v with
    | none => rfl
    | some d => exact getAssoc_setAssoc_ne a.st.cache x t (some d) hne
  | none =>
    cases hv : process x with
    | none => rfl
    | some v =>
      cases v with
      | none => exact getAssoc_setAssoc_ne a.st.cache x t none hne
      | some d =>
        simp only
        rw [getAssoc_setAssoc_ne _ x t (some d) hne]
        exact getAssoc_setAssoc_ne a.st.cache x t (some d) hne

theorem stepTrack_exn {α : Type} (process : ProcessFn α) (a : LoopAcc α) (t : String)
    (hc : getAssoc a.st.cache t = none) (hp : process t = none) :
    stepTrack process a t = { a with invoked := a.invoked ++ [t] } := by
  unfold stepTrack
  rw [hc, hp]

theorem runLoop_filter_exn {α : Type} (process : ProcessFn α) (t : String)
    (hp : process t = none) (ts : List String) (a : LoopAcc α)
    (hc : getAssoc a.st.cache t = none) :
    (runLoop process a ts).st = (runLoop process a (ts.filter fun x => !(x == t))).st ∧
    (runLoop process a ts).apd = (runLoop process a (ts.filter fun x => !(x == t))).apd ∧
    (runLoop process a ts).pt = (runLoop process a (ts.filter fun x => !(x == t))).pt := by
  induction ts generalizing a with
  | nil => exact ⟨rfl, rfl, rfl⟩
  | cons x rest ih =>
    by_cases hx : x = t
    · subst hx
      rw [List.filter_cons_of_neg (by simp), runLoop_cons,
        stepTrack_exn process a x hc hp]
      have h1 := runLoop_proj process rest ({ a with invoked := a.invoked ++ [x] }) a
        rfl rfl rfl
      have h2 := ih a hc
      exact ⟨h1.1.trans h2.1, h1.2.1.trans h2.2.1, h1.2.2.trans h2.2.2⟩
    · rw [List.filter_cons_of_pos (by simp [hx]), runLoop_cons, runLoop_cons]
      refine ih (stepTrack process a x) ?_
      rw [stepTrack_cache_get_ne process a x t (fun he => hx he.symm)]
      exact hc

theorem runLoop_append {α : Type} (process : ProcessFn α) (a : LoopAcc α)
    (l1 l2 : List String) :
    runLoop process a (l1 ++ l2) = runLoop process (runLoop process a l1) l2 :=
  List.foldl_append (stepTrack process) a l1 l2

theorem train_iterated_eq {α : Type}
    (tm : List (String × α) → List String → List String) (available : List String)
    (process : ProcessFn α) (s : OrchState α) (h1 : s.completed = false) :
    (train_all_models tm available process s).iterated =
      available.filter fun t => !(s.processedTracks.contains t) := by
  by_cases h2 : available.isEmpty = true
  · unfold train_all_models
    simp only [h1, h2, Bool.false_eq_true, if_false]
    rw [if_pos trivial]
    rw [List.isEmpty_iff.mp h2]
    rfl
  · rw [Bool.not_eq_true] at h2
    by_cases h3 : (available.filter fun t => !(s.processedTracks.contains t)).isEmpty = true
    · unfold train_all_models
      simp only [h1, h2, h3, Bool.false_eq_true, if_false]
      rw [if_pos trivial]
      exact (List.isEmpty_iff.mp h3).symm
    · rw [Bool.not_eq_true] at h3
      exact train_all_models_iterated tm available process s h1 h3

theorem train_invoked_sub {α : Type}
    (tm : List (String × α) → List String → List String) (available : List String)
    (process : ProcessFn α) (s : OrchState α) (h1 : s.completed = false) :
    ∀ x ∈ (train_all_models tm available process s).invoked,
      x ∈ available ∧ x ∉ s.processedTracks := by
  by_cases h2 : available.isEmpty = true
  · unfold train_all_models
    simp only [h1, h2, Bool.false_eq_true, if_false]
    rw [if_pos trivial]
    intro x hx
    exact absurd hx (List.not_mem_nil x)
  · rw [Bool.not_eq_true] at h2
    by_cases h3 : (available.filter fun t => !(s.processedTracks.contains t)).isEmpty = true
    · unfold train_all_models
      simp only [h1, h2, h3, Bool.false_eq_true, if_false]
      rw [if_pos trivial]
      intro x hx
      exact absurd hx (List.not_mem_nil x)
    · rw [Bool.not_eq_true] at h3
      rw [train_all_models_loop_char tm available process s h1 h2 h3]
      simp only
      intro x hx
      have hx' : x ∈ (runLoop process ⟨s, load_processed_data_state s, s.processedTracks, []⟩
          (available.filter fun t => !(s.processedTracks.contains t))).invoked := by
        by_cases he : (runLoop process ⟨s, load_processed_data_state s, s.processedTracks, []⟩
            (available.filter fun t => !(s.processedTracks.contains t))).apd.isEmpty = true
        · rw [if_pos he] at hx
          exact hx
        · rw [if_neg he] at hx
          exact hx
      rcases runLoop_invoked_mem process _ _ x hx' with h | h
      · exact absurd h (List.not_mem_nil x)
      · obtain ⟨hmem, hp⟩ := List.mem_filter.mp h
        refine ⟨hmem, fun hcon => ?_⟩
        have hct : s.processedTracks.contains x = true := by simp [hcon]
        rw [hct] at hp
        simp at hp

theorem runLoop_resume {α : Type} (process : ProcessFn α) (l xs ys : List String)
    (hl : l = xs ++ ys) (hnd : l.Nodup) :
    (runLoop process
      ⟨⟨(okAssoc process xs).map Prod.fst, (okAssoc process xs).map Prod.fst,
          cacheOf process xs, [], false⟩,
        okAssoc process xs, (okAssoc process xs).map Prod.fst, []⟩
      (l.filter fun t => !(((okAssoc process xs).map Prod.fst).contains t))).apd =
    (runLoop process ⟨freshState α, [], [], []⟩ l).apd := by
  subst hl
  have hndx : xs.Nodup := (List.nodup_append.mp hnd).1
  have hdisj : xs.Disjoint ys := (List.nodup_append.mp hnd).2.2
  have hfy : ys.filter (fun t => !(((okAssoc process xs).map Prod.fst).contains t)) = ys := by
    refine List.filter_eq_self.mpr fun x hx => ?_
    have hnotmem : x ∉ (okAssoc process xs).map Prod.fst := fun hmem =>
      hdisj (((mem_okKeys_iff process xs x).mp hmem).1) hx
    simp [hnotmem]
  have hts : ∀ t ∈ xs.filter (fun t => !(((okAssoc process xs).map Prod.fst).contains t)),
      t ∈ xs ∧ (process t).bind id = none := by
    intro t ht
    obtain ⟨hmem, hp⟩ := List.mem_filter.mp ht
    refine ⟨hmem, ?_⟩
    cases hb : (process t).bind id with
    | none => rfl
    | some d =>
      exfalso
      have hk : t ∈ (okAssoc process xs).map Prod.fst :=
        (mem_okKeys_iff process xs t).mpr ⟨hmem, d, hb⟩
      simp [hk] at hp
  have hbad := runLoop_bad process xs hndx
    (xs.filter fun t => !(((okAssoc process xs).map Prod.fst).contains t)) hts
    ⟨⟨(okAssoc process xs).map Prod.fst, (okAssoc process xs).map Prod.fst,
        cacheOf process xs, [], false⟩,
      okAssoc process xs, (okAssoc process xs).map Prod.fst, []⟩ rfl
  have hproj := runLoop_proj process ys
    (runLoop process
      ⟨⟨(okAssoc process xs).map Prod.fst, (okAssoc process xs).map Prod.fst,
          cacheOf process xs, [], false⟩,
        okAssoc process xs, (okAssoc process xs).map Prod.fst, []⟩
      (xs.filter fun t => !(((okAssoc process xs).map Prod.fst).contains t)))
    (⟨⟨(okAssoc process xs).map Prod.fst, (okAssoc process xs).map Prod.fst,
          cacheOf process xs, [], false⟩,
        okAssoc process xs, (okAssoc process xs).map Prod.fst, xs⟩ : LoopAcc α)
    hbad.1 hbad.2.1 hbad.2.2
  rw [List.filter_append, hfy, runLoop_append, runLoop_append,
    runLoop_fresh process xs hndx]
  exact hproj.2.1

theorem resume_aggregate_eq {α : Type}
    (tm : List (String × α) → List String → List String) (available : List String)
    (process : ProcessFn α) (k : ℕ) (hnd : available.Nodup) (hk : k < available.length) :
    (train_all_models tm available process
        (runLoop process ⟨freshState α, [], [], []⟩ (available.take k)).st).aggregate =
      (train_all_models tm available process (freshState α)).aggregate := by
  have hsplit : available.take k ++ available.drop k = available :=
    List.take_append_drop k available
  have hndt : (available.take k).Nodup := hnd.sublist (List.take_sublist k available)
  have hndapp : (available.take k ++ available.drop k).Nodup := by
    rw [hsplit]
    exact hnd
  have hdisj : (available.take k).Disjoint (available.drop k) :=
    (List.nodup_append.mp hndapp).2.2
  have havne : available.isEmpty = false := by
    simp [List.isEmpty_iff]
    exact List.ne_nil_of_length_pos (Nat.lt_of_le_of_lt (Nat.zero_le k) hk)
  have hx0d : available.get ⟨k, hk⟩ ∈ available.drop k := by
    rw [List.drop_eq_getElem_cons hk]
    exact List.mem_cons_self _ _
  have hx0nt : available.get ⟨k, hk⟩ ∉ available.take k := fun hmem => hdisj hmem hx0d
  have hx0nk : available.get ⟨k, hk⟩ ∉ (okAssoc process (available.take k)).map Prod.fst :=
    fun hmem => hx0nt ((mem_okKeys_iff process _ _).mp hmem).1
  have hx0f : available.get ⟨k, hk⟩ ∈ available.filter
      (fun t => !(((okAssoc process (available.take k)).map Prod.fst).contains t)) := by
    refine List.mem_filter.mpr ⟨List.get_mem available k hk, ?_⟩
    cases hcc : ((okAssoc process (available.take k)).map Prod.fst).contains
        (available.get ⟨k, hk⟩) with
    | false => rfl
    | true => exact absurd (List.elem_iff.mp hcc) hx0nk
  have h3L : (available.filter
      (fun t => !(((okAssoc process (available.take k)).map Prod.fst).contains t))).isEmpty
        = false := by
    cases he : (available.filter
        (fun t => !(((okAssoc process (available.take k)).map Prod.fst).contains t))).isEmpty with
    | false => rfl
    | true => exact absurd (List.isEmpty_iff.mp he ▸ hx0f) (List.not_mem_nil _)
  have hfR : available.filter (fun t => !(((freshState α).processedTracks).contains t))
      = available :=
    List.filter_eq_self.mpr fun x _ => rfl
  have h3R : (available.filter
      (fun t => !(((freshState α).processedTracks).contains t))).isEmpty = false := by
    rw [hfR]
    exact havne
  rw [runLoop_fresh process (available.take k) hndt]
  dsimp only
  rw [train_all_models_aggregate tm available process
        ⟨(okAssoc process (available.take k)).map Prod.fst,
          (okAssoc process (available.take k)).map Prod.fst,
          cacheOf process (available.take k), [], false⟩ rfl havne h3L,
      train_all_models_aggregate tm available process (freshState α) rfl havne h3R]
  dsimp only
  rw [load_fresh_char process (available.take k) hndt, hfR]
  exact runLoop_resume process available (available.take k) (available.drop k)
    hsplit.symm hnd

/-- **C1** (resume correctness of the orchestrator): (a) if the checkpoint's
completed flag is set, `train_all_models` returns immediately without touching
any track; (b) otherwise it iterates exactly the available tracks not listed in
the checkpoint's `processed_tracks`, and every track whose raw pipeline runs is
an available track that was not recorded as processed — a DONE track is never
reprocessed; (c) a run interrupted after the first `k` tracks and restarted
from its persisted state yields the same final aggregate as one uninterrupted
run from the fresh state. -/
theorem C1_resume_correctness {α : Type}
    (tm : List (String × α) → List String → List String)
    (available : List String) (process : ProcessFn α) (k : ℕ)
    (hnd : available.Nodup) (hk : k < available.length) :
    (∀ s : OrchState α, s.completed = true →
        train_all_models tm available process s = ⟨s, [], [], [], .completedEarly⟩) ∧
    (∀ s : OrchState α, s.completed = false →
        (train_all_models tm available process s).iterated =
          (available.filter fun t => !(s.processedTracks.contains t)) ∧
        ∀ x ∈ (train_all_models tm available process s).invoked,
          x ∈ available ∧ x ∉ s.processedTracks) ∧
    (train_all_models tm available process
        (runLoop process ⟨freshState α, [], [], []⟩ (available.take k)).st).aggregate =
      (train_all_models tm available process (freshState α)).aggregate :=
  ⟨fun s hs => train_all_models_completed tm available process s hs,
   fun s hs => ⟨train_iterated_eq tm available process s hs,
     train_invoked_sub tm available process s hs⟩,
   resume_aggregate_eq tm available process k hnd hk⟩

/-- Witness for C1: concrete two-track instance, interrupted after one track. -/
theorem C1_resume_correctness_witness :
    (["suzuka", "fuji"] : List String).Nodup ∧
    1 < (["suzuka", "fuji"] : List String).length ∧
    (train_all_models (fun _ _ => ([] : List String)) ["suzuka", "fuji"]
        (fun t => some (some t.length))
        (runLoop (fun t => some (some t.length)) ⟨freshState ℕ, [], [], []⟩
          (["suzuka", "fuji"].take 1)).st).aggregate =
      (train_all_models (fun _ _ => ([] : List String)) ["suzuka", "fuji"]
        (fun t => some (some t.length)) (freshState ℕ)).aggregate :=
  ⟨by decide, by decide,
    (C1_resume_correctness (fun _ _ => ([] : List String)) ["suzuka", "fuji"]
      (fun t => some (some t.length)) 1 (by decide) (by decide)).2.2⟩

theorem train_noTracks {α : Type}
    (tm : List (String × α) → List String → List String) (available : List String)
    (process : ProcessFn α) (s : OrchState α) (h1 : s.completed = false)
    (h2 : available.isEmpty = true) :
    train_all_models tm available process s = ⟨s, [], [], [], .noTracks⟩ := by
  unfold train_all_models
  simp only [h1, h2, Bool.false_eq_true, if_false]
  rw [if_pos trivial]

theorem train_exn_prune {α : Type}
    (tm : List (String × α) → List String → List String)
    (available : List String) (process : ProcessFn α) (t : String)
    (hp : process t = none) :
    (train_all_models tm available process (freshState α)).aggregate =
      (train_all_models tm (available.filter fun x => !(x == t)) process
        (freshState α)).aggregate ∧
    (train_all_models tm available process (freshState α)).st.processedTracks =
      (train_all_models tm (available.filter fun x => !(x == t)) process
        (freshState α)).st.processedTracks ∧
    (train_all_models tm available process (freshState α)).st.processedDataKeys =
      (train_all_models tm (available.filter fun x => !(x == t)) process
        (freshState α)).st.processedDataKeys ∧
    (train_all_models tm available process (freshState α)).st.cache =
      (train_all_models tm (available.filter fun x => !(x == t)) process
        (freshState α)).st.cache := by
  have hfR : ∀ l : List String,
      l.filter (fun x => !(((freshState α).processedTracks).contains x)) = l :=
    fun l => List.filter_eq_self.mpr fun x _ => rfl
  have htrip := runLoop_filter_exn process t hp available
    ⟨freshState α, load_processed_data_state (freshState α),
      (freshState α).processedTracks, []⟩ rfl
  by_cases hA : available.isEmpty = true
  · have hB : (available.filter fun x => !(x == t)).isEmpty = true := by
      rw [List.isEmpty_iff.mp hA]
      rfl
    rw [train_noTracks tm available process (freshState α) rfl hA,
        train_noTracks tm _ process (freshState α) rfl hB]
    exact ⟨rfl, rfl, rfl, rfl⟩
  · rw [Bool.not_eq_true] at hA
    have h3av : (available.filter fun x =>
        !(((freshState α).processedTracks).contains x)).isEmpty = false := by
      rw [hfR]
      exact hA
    by_cases hB : (available.filter fun x => !(x == t)).isEmpty = true
    · have hBnil : available.filter (fun x => !(x == t)) = [] := List.isEmpty_iff.mp hB
      rw [train_all_models_loop_char tm available process (freshState α) rfl hA h3av,
          train_noTracks tm _ process (freshState α) rfl hB]
      simp only
      rw [hfR]
      have hst1 : (runLoop process ⟨freshState α, load_processed_data_state (freshState α),
          (freshState α).processedTracks, []⟩ available).st = freshState α := by
        have h := htrip.1
        rw [hBnil] at h
        exact h
      have hapd1 : (runLoop process ⟨freshState α, load_processed_data_state (freshState α),
          (freshState α).processedTracks, []⟩ available).apd = [] := by
        have h := htrip.2.1
        rw [hBnil] at h
        exact h
      have he : (runLoop process ⟨freshState α, load_processed_data_state (freshState α),
          (freshState α).processedTracks, []⟩ available).apd.isEmpty = true := by
        rw [hapd1]
        rfl
      rw [if_pos he]
      exact ⟨rfl, congrArg OrchState.processedTracks hst1,
        congrArg OrchState.processedDataKeys hst1, congrArg OrchState.cache hst1⟩
    · rw [Bool.not_eq_true] at hB
      have h3B : ((available.filter fun x => !(x == t)).filter (fun x =>
          !(((freshState α).processedTracks).contains x))).isEmpty = false := by
        rw [hfR]
        exact hB
      rw [train_all_models_loop_char tm available process (freshState α) rfl hA h3av,
          train_all_models_loop_char tm _ process (freshState α) rfl hB h3B]
      simp only
      rw [hfR, hfR]
      by_cases he : (runLoop process ⟨freshState α, load_processed_data_state (freshState α),
          (freshState α).processedTracks, []⟩ available).apd.isEmpty = true
      · have he2 : (runLoop process ⟨freshState α, load_processed_data_state (freshState α),
            (freshState α).processedTracks, []⟩
            (available.filter fun x => !(x == t))).apd.isEmpty = true := by
          rw [← htrip.2.1]
          exact he
        rw [if_pos he, if_pos he2]
        exact ⟨rfl, congrArg OrchState.processedTracks htrip.1,
          congrArg OrchState.processedDataKeys htrip.1, congrArg OrchState.cache htrip.1⟩
      · have he2 : ¬ (runLoop process ⟨freshState α, load_processed_data_state (freshState α),
            (freshState α).processedTracks, []⟩
            (available.filter fun x => !(x == t))).apd.isEmpty = true := by
          rw [← htrip.2.1]
          exact he
        rw [if_neg he, if_neg he2]
        refine ⟨htrip.2.1, htrip.2.2, congrArg (List.map Prod.fst) htrip.2.1, ?_⟩
        show (runLoop process ⟨freshState α, load_processed_data_state (freshState α),
            (freshState α).processedTracks, []⟩ available).st.cache =
          (runLoop process ⟨freshState α, load_processed_data_state (freshState α),
            (freshState α).processedTracks, []⟩
            (available.filter fun x => !(x == t))).st.cache
        exact congrArg OrchState.cache htrip.1

theorem train_exn_not_processed {α : Type}
    (tm : List (String × α) → List String → List String)
    (available : List String) (process : ProcessFn α) (t : String)
    (hp : process t = none) :
    t ∉ (train_all_models tm available process (freshState α)).st.processedTracks := by
  have hfR : ∀ l : List String,
      l.filter (fun x => !(((freshState α).processedTracks).contains x)) = l :=
    fun l => List.filter_eq_self.mpr fun x _ => rfl
  have htrip := runLoop_filter_exn process t hp available
    ⟨freshState α, load_processed_data_state (freshState α),
      (freshState α).processedTracks, []⟩ rfl
  by_cases hA : available.isEmpty = true
  · rw [train_noTracks tm available process (freshState α) rfl hA]
    exact List.not_mem_nil t
  · rw [Bool.not_eq_true] at hA
    have h3av : (available.filter fun x =>
        !(((freshState α).processedTracks).contains x)).isEmpty = false := by
      rw [hfR]
      exact hA
    rw [train_all_models_loop_char tm available process (freshState α) rfl hA h3av]
    simp only
    rw [hfR]
    have hsync := runLoop_sync process available
      ⟨freshState α, load_processed_data_state (freshState α),
        (freshState α).processedTracks, []⟩ rfl rfl
    have hnt : t ∉ (runLoop process ⟨freshState α, load_processed_data_state (freshState α),
        (freshState α).processedTracks, []⟩ available).pt := by
      rw [htrip.2.2]
      intro hmem
      rcases runLoop_pt_mem process _ _ t hmem with h | h
      · exact (List.not_mem_nil t) h
      · obtain ⟨_, hpB⟩ := List.mem_filter.mp h
        simp at hpB
    by_cases he : (runLoop process ⟨freshState α, load_processed_data_state (freshState α),
        (freshState α).processedTracks, []⟩ available).apd.isEmpty = true
    · rw [if_pos he]
      show t ∉ (runLoop process ⟨freshState α, load_processed_data_state (freshState α),
        (freshState α).processedTracks, []⟩ available).st.processedTracks
      rw [hsync.1]
      exact hnt
    · rw [if_neg he]
      exact hnt

/-- **C2** (partial-failure isolation): from a fresh checkpoint, if the raw
pipeline raises on one track `t`, the per-track loop of `train_all_models`
still iterates every available track (the run does not abort), `t` is never
added to `processed_tracks`, and the final aggregate, processed-track list,
processed-data keys and per-track cache are identical to those of a run in
which the failing track is absent from the input. -/
theorem C2_failure_isolation {α : Type}
    (tm : List (String × α) → List String → List String)
    (available : List String) (process : ProcessFn α) (t : String)
    (hfail : process t = none) :
    (train_all_models tm available process (freshState α)).iterated = available ∧
    t ∉ (train_all_models tm available process (freshState α)).st.processedTracks ∧
    (train_all_models tm available process (freshState α)).aggregate =
      (train_all_models tm (available.filter fun x => !(x == t)) process
        (freshState α)).aggregate ∧
    (train_all_models tm available process (freshState α)).st.processedTracks =
      (train_all_models tm (available.filter fun x => !(x == t)) process
        (freshState α)).st.processedTracks ∧
    (train_all_models tm available process (freshState α)).st.processedDataKeys =
      (train_all_models tm (available.filter fun x => !(x == t)) process
        (freshState α)).st.processedDataKeys ∧
    (train_all_models tm available process (freshState α)).st.cache =
      (train_all_models tm (available.filter fun x => !(x == t)) process
        (freshState α)).st.cache := by
  obtain ⟨h1, h2, h3, h4⟩ := train_exn_prune tm available process t hfail
  refine ⟨?_, train_exn_not_processed tm available process t hfail, h1, h2, h3, h4⟩
  rw [train_iterated_eq tm available process (freshState α) rfl]
  exact List.filter_eq_self.mpr fun x _ => rfl

/-- Witness for C2: three tracks, the middle one raising. -/
theorem C2_failure_isolation_witness :
    (fun x : String => if x == "fuji" then (none : Option (Option ℕ))
        else some (some x.length)) "fuji" = none ∧
    (train_all_models (fun _ _ => ([] : List String)) ["suzuka", "fuji", "okayama"]
        (fun x : String => if x == "fuji" then (none : Option (Option ℕ))
          else some (some x.length)) (freshState ℕ)).aggregate =
      (train_all_models (fun _ _ => ([] : List String))
        (["suzuka", "fuji", "okayama"].filter fun x => !(x == "fuji"))
        (fun x : String => if x == "fuji" then (none : Option (Option ℕ))
          else some (some x.length)) (freshState ℕ)).aggregate :=
  ⟨by decide,
    (C2_failure_isolation (fun _ _ => ([] : List String))
      ["suzuka", "fuji", "okayama"]
      (fun x : String => if x == "fuji" then (none : Option (Option ℕ))
        else some (some x.length)) "fuji" (by decide)).2.2.1⟩

theorem char_toNat_ofNat (n : Nat) (h : n < 55296) : (Char.ofNat n).toNat = n := by
  unfold Char.ofNat
  rw [dif_pos (Or.inl h)]
  show (UInt32.ofNat' n _).toNat = n
  simp [UInt32.ofNat', UInt32.toNat]

theorem char_isLower_iff (c : Char) : c.isLower = true ↔ 97 ≤ c.toNat ∧ c.toNat ≤ 122 := by
  unfold Char.isLower
  simp [UInt32.le_def, BitVec.le_def, Char.toNat, UInt32.toNat]

theorem char_isUpper_iff (c : Char) : c.isUpper = true ↔ 65 ≤ c.toNat ∧ c.toNat ≤ 90 := by
  unfold Char.isUpper
  simp [UInt32.le_def, BitVec.le_def, Char.toNat, UInt32.toNat]

theorem char_isDigit_iff (c : Char) : c.isDigit = true ↔ 48 ≤ c.toNat ∧ c.toNat ≤ 57 := by
  unfold Char.isDigit
  simp [UInt32.le_def, BitVec.le_def, Char.toNat, UInt32.toNat]

theorem char_eq_iff_toNat (c d : Char) : c = d ↔ c.toNat = d.toNat := by
  constructor
  · intro h
    rw [h]
  · intro h
    have := congrArg Char.ofNat h
    rwa [Char.ofNat_toNat, Char.ofNat_toNat] at this

theorem char_not_lower_of_range (c : Char) (h : c.toNat < 97 ∨ 122 < c.toNat) :
    c.isLower = false := by
  cases hl : c.isLower with
  | false => rfl
  | true =>
    have := (char_isLower_iff c).mp hl
    omega

theorem char_toUpper_of_not_lower (c : Char) (h : c.isLower = false) : c.toUpper = c := by
  simp only [Char.toUpper]
  rw [if_neg]
  intro hc
  have := (char_isLower_iff c).mpr ⟨hc.1, hc.2⟩
  rw [this] at h
  exact Bool.noConfusion h

theorem char_toUpper_of_lower (c : Char) (h : c.isLower = true) :
    (c.toUpper).toNat = c.toNat - 32 := by
  have h1 := (char_isLower_iff c).mp h
  simp only [Char.toUpper]
  rw [if_pos ⟨h1.1, h1.2⟩]
  exact char_toNat_ofNat _ (by omega)

theorem char_toUpper_isLower_false (c : Char) : (c.toUpper).isLower = false := by
  cases hl : c.isLower with
  | false =>
    rw [char_toUpper_of_not_lower c hl]
    exact hl
  | true =>
    have h1 := (char_isLower_iff c).mp hl
    have h2 := char_toUpper_of_lower c hl
    cases hr : (c.toUpper).isLower with
    | false => rfl
    | true =>
      have := (char_isLower_iff _).mp hr
      omega

theorem char_toUpper_idem (c : Char) : c.toUpper.toUpper = c.toUpper :=
  char_toUpper_of_not_lower _ (char_toUpper_isLower_false c)

theorem char_toUpper_eq_underscore (c : Char) (h : c.toUpper = '_') : c = '_' := by
  cases hl : c.isLower with
  | false => rwa [char_toUpper_of_not_lower c hl] at h
  | true =>
    exfalso
    have h1 := (char_isLower_iff c).mp hl
    have h2 := char_toUpper_of_lower c hl
    rw [char_eq_iff_toNat] at h
    rw [h2] at h
    have h95 : ('_').toNat = 95 := by decide
    omega

theorem char_isAlphanum_iff (c : Char) : c.isAlphanum = true ↔
    (48 ≤ c.toNat ∧ c.toNat ≤ 57) ∨ (65 ≤ c.toNat ∧ c.toNat ≤ 90) ∨
      (97 ≤ c.toNat ∧ c.toNat ≤ 122) := by
  unfold Char.isAlphanum Char.isAlpha
  simp only [Bool.or_eq_true, char_isUpper_iff, char_isDigit_iff, char_isLower_iff]
  tauto

theorem char_toUpper_isAlphanum (c : Char) (h : c.isAlphanum = true) :
    (c.toUpper).isAlphanum = true := by
  rcases (char_isAlphanum_iff c).mp h with hr | hr | hr
  · rw [char_toUpper_of_not_lower c (char_not_lower_of_range c (by omega))]
    exact h
  · rw [char_toUpper_of_not_lower c (char_not_lower_of_range c (by omega))]
    exact h
  · have h2 := char_toUpper_of_lower c ((char_isLower_iff c).mpr hr)
    exact (char_isAlphanum_iff _).mpr (Or.inr (Or.inl (by omega)))

theorem char_ne_of_toNat (c d : Char) (h : c.toNat ≠ d.toNat) : c ≠ d :=
  fun he => h (congrArg Char.toNat he)

theorem char_good_not_whitespace (c : Char) (h : c.isAlphanum = true ∨ c = '_') :
    c.isWhitespace = false := by
  rcases h with h | rfl
  · rcases (char_isAlphanum_iff c).mp h with hr | hr | hr <;>
    · unfold Char.isWhitespace
      simp only [Bool.or_eq_false_iff, decide_eq_false_iff_not]
      exact ⟨⟨⟨char_ne_of_toNat _ _ (show c.toNat ≠ 32 by omega),
        char_ne_of_toNat _ _ (show c.toNat ≠ 9 by omega)⟩,
        char_ne_of_toNat _ _ (show c.toNat ≠ 13 by omega)⟩,
        char_ne_of_toNat _ _ (show c.toNat ≠ 10 by omega)⟩
  · decide

theorem char_good_ne_bom (c : Char) (h : c.isAlphanum = true ∨ c = '_') :
    c ≠ '﻿' := by
  rcases h with h | rfl
  · rcases (char_isAlphanum_iff c).mp h with hr | hr | hr <;>
      exact char_ne_of_toNat _ _ (show c.toNat ≠ 65279 by omega)
  · decide

theorem dropWhile_eq_self_of_head (p : Char → Bool) (l : List Char)
    (h : ∀ x ∈ l.head?, p x = false) : l.dropWhile p = l := by
  cases l with
  | nil => rfl
  | cons a t =>
    rw [List.dropWhile_cons, if_neg]
    rw [h a rfl]
    exact Bool.noConfusion

theorem dropWhile_head_false (p : Char → Bool) (l : List Char) :
    ∀ x ∈ (l.dropWhile p).head?, p x = false := by
  induction l with
  | nil => intro x hx; cases hx
  | cons a t ih =>
    rw [List.dropWhile_cons]
    by_cases ha : p a = true
    · rw [if_pos ha]
      exact ih
    · rw [if_neg ha]
      intro x hx
      rw [Option.mem_def, List.head?_cons, Option.some_inj] at hx
      subst hx
      exact Bool.eq_false_iff.mpr ha

theorem dropWhile_idem (p : Char → Bool) (l : List Char) :
    (l.dropWhile p).dropWhile p = l.dropWhile p :=
  dropWhile_eq_self_of_head p _ (dropWhile_head_false p l)

theorem suffix_getLast (l1 l2 : List Char) (h : l1 <:+ l2) (hne : l1 ≠ []) :
    l1.getLast? = l2.getLast? := by
  obtain ⟨t, rfl⟩ := h
  rw [List.getLast?_append_of_ne_nil]
  exact hne

theorem stripUnders_subset (l : List Char) : ∀ x ∈ stripUnders l, x ∈ l := by
  intro x hx
  unfold stripUnders at hx
  rw [List.mem_reverse] at hx
  have h1 := (List.dropWhile_suffix (l := ((l.dropWhile (· = '_')).reverse))
    (fun c => c = '_')).subset hx
  rw [List.mem_reverse] at h1
  exact (List.dropWhile_suffix (fun c => c = '_')).subset h1

theorem stripUnders_idem (l : List Char) : stripUnders (stripUnders l) = stripUnders l := by
  unfold stripUnders
  by_cases hv : (((l.dropWhile (· = '_')).reverse).dropWhile (· = '_')) = []
  · rw [hv]
    rfl
  · have hs : ((((l.dropWhile (· = '_')).reverse).dropWhile (· = '_')).reverse).dropWhile
        (· = '_') = (((l.dropWhile (· = '_')).reverse).dropWhile (· = '_')).reverse := by
      apply dropWhile_eq_self_of_head
      intro c hc
      rw [List.head?_reverse] at hc
      rw [suffix_getLast _ _ (List.dropWhile_suffix _) hv] at hc
      rw [List.getLast?_reverse] at hc
      exact dropWhile_head_false _ l c hc
    rw [hs, List.reverse_reverse, dropWhile_idem]

theorem dropWhile_map_underscore (f : Char → Char) (l : List Char)
    (h : ∀ c ∈ l, (f c = '_') ↔ (c = '_')) :
    (l.map f).dropWhile (· = '_') = (l.dropWhile (· = '_')).map f := by
  induction l with
  | nil => rfl
  | cons a t ih =>
    rw [List.map_cons, List.dropWhile_cons, List.dropWhile_cons]
    by_cases ha : a = '_'
    · rw [if_pos (by simp [(h a (List.mem_cons_self a t)).mpr ha]),
        if_pos (by simp [ha])]
      exact ih fun c hc => h c (List.mem_cons_of_mem a hc)
    · have hfa : ¬ f a = '_' := fun he => ha ((h a (List.mem_cons_self a t)).mp he)
      rw [if_neg (by simp [hfa]), if_neg (by simp [ha]), List.map_cons]

theorem stripUnders_map_comm (f : Char → Char) (l : List Char)
    (h : ∀ c ∈ l, (f c = '_') ↔ (c = '_')) :
    stripUnders (l.map f) = (stripUnders l).map f := by
  unfold stripUnders
  rw [dropWhile_map_underscore f l h, ← List.map_reverse,
    dropWhile_map_underscore f _ (fun c hc => h c (by
      have := (List.dropWhile_suffix (l := l) (fun c => c = '_')).subset
        (List.mem_reverse.mp hc)
      exact this)),
    ← List.map_reverse]

theorem collapseUnders_subset (l : List Char) : ∀ x ∈ collapseUnders l, x ∈ l := by
  induction l with
  | nil => intro x hx; cases hx
  | cons a t ih =>
    cases t with
    | nil => intro x hx; exact hx
    | cons b r =>
      intro x hx
      by_cases hab : a = '_' ∧ b = '_'
      · simp only [collapseUnders, if_pos hab] at hx
        exact List.mem_cons_of_mem a (ih x hx)
      · simp only [collapseUnders, if_neg hab] at hx
        rcases List.mem_cons.mp hx with h | h
        · exact h ▸ List.mem_cons_self a _
        · exact List.mem_cons_of_mem a (ih x h)

theorem collapseUnders_head (b : Char) (r : List Char) (hb : b ≠ '_') :
    (collapseUnders (b :: r)).head? = some b := by
  cases r with
  | nil => rfl
  | cons c r' =>
    have hnc : ¬(b = '_' ∧ c = '_') := fun h => hb h.1
    simp only [collapseUnders, if_neg hnc]
    rfl

theorem collapseUnders_chain (l : List Char) :
    List.Chain' (fun a b : Char => ¬(a = '_' ∧ b = '_')) (collapseUnders l) := by
  induction l with
  | nil => exact List.chain'_nil
  | cons a t ih =>
    cases t with
    | nil => exact List.chain'_singleton a
    | cons b r =>
      by_cases hab : a = '_' ∧ b = '_'
      · simp only [collapseUnders, if_pos hab]
        exact ih
      · simp only [collapseUnders, if_neg hab]
        rw [List.chain'_cons']
        refine ⟨?_, ih⟩
        intro x hx
        by_cases ha : a = '_'
        · have hb : b ≠ '_' := fun hbe => hab ⟨ha, hbe⟩
          rw [collapseUnders_head b r hb, Option.mem_def, Option.some_inj] at hx
          subst hx
          exact fun hc => hb hc.2
        · exact fun hc => ha hc.1

theorem collapseUnders_fixed (l : List Char)
    (h : List.Chain' (fun a b : Char => ¬(a = '_' ∧ b = '_')) l) : collapseUnders l = l := by
  induction l with
  | nil => rfl
  | cons a t ih =>
    cases t with
    | nil => rfl
    | cons b r =>
      rw [List.chain'_cons] at h
      simp only [collapseUnders, if_neg h.1]
      rw [ih h.2]

theorem chain_stripUnders (l : List Char)
    (h : List.Chain' (fun a b : Char => ¬(a = '_' ∧ b = '_')) l) :
    List.Chain' (fun a b : Char => ¬(a = '_' ∧ b = '_')) (stripUnders l) := by
  unfold stripUnders
  rw [List.chain'_reverse]
  apply List.Chain'.suffix ?_ (List.dropWhile_suffix _)
  rw [List.chain'_reverse]
  apply List.Chain'.suffix ?_ (List.dropWhile_suffix _)
  exact h

theorem chain_map_toUpper (l : List Char)
    (h : List.Chain' (fun a b : Char => ¬(a = '_' ∧ b = '_')) l) :
    List.Chain' (fun a b : Char => ¬(a = '_' ∧ b = '_')) (l.map Char.toUpper) := by
  rw [List.chain'_map]
  exact h.imp fun a b hab hc =>
    hab ⟨char_toUpper_eq_underscore _ hc.1, char_toUpper_eq_underscore _ hc.2⟩

theorem map_eq_self_of_fixed (f : Char → Char) (l : List Char)
    (h : ∀ a ∈ l, f a = a) : l.map f = l := by
  induction l with
  | nil => rfl
  | cons a t ih =>
    rw [List.map_cons, h a (List.mem_cons_self a t),
      ih fun x hx => h x (List.mem_cons_of_mem a hx)]

theorem dropWhile_eq_self_of_all (p : Char → Bool) (l : List Char)
    (h : ∀ x ∈ l, p x = false) : l.dropWhile p = l :=
  dropWhile_eq_self_of_head p l fun x hx => h x (List.mem_of_mem_head? hx)

theorem pyStrip_eq_self (l : List Char) (h : ∀ x ∈ l, x.isWhitespace = false) :
    pyStrip l = l := by
  unfold pyStrip
  rw [dropWhile_eq_self_of_all _ l h,
    dropWhile_eq_self_of_all _ _ (fun x hx => h x (List.mem_reverse.mp hx)),
    List.reverse_reverse]

theorem cleanChar_good (c : Char) : (cleanChar c).isAlphanum = true ∨ cleanChar c = '_' := by
  unfold cleanChar
  split
  · rename_i h
    simp only [Bool.or_eq_true, decide_eq_true_eq] at h
    exact h
  · right
    rfl

theorem cleanChar_eq_self (c : Char) (h : c.isAlphanum = true ∨ c = '_') :
    cleanChar c = c := by
  have hc : (c.isAlphanum || decide (c = '_')) = true := by
    rcases h with h | rfl
    · simp [h]
    · simp
  unfold cleanChar
  rw [if_pos hc]

theorem stripUnders_upper_fixed (z : List Char) :
    stripUnders ((stripUnders z).map Char.toUpper) = (stripUnders z).map Char.toUpper := by
  rw [stripUnders_map_comm Char.toUpper (stripUnders z)
    (fun c _ => ⟨fun h => char_toUpper_eq_underscore c h, fun h => by rw [h]; decide⟩)]
  rw [stripUnders_idem]

theorem cleanPipeline_fixed (L : List Char)
    (hg : ∀ x ∈ L, (x.isAlphanum = true ∨ x = '_') ∧ x.isLower = false)
    (hchain : List.Chain' (fun a b : Char => ¬(a = '_' ∧ b = '_')) L)
    (hstrip : stripUnders L = L) :
    (stripUnders (collapseUnders ((pyStrip (L.dropWhile (fun c => c = '﻿'))).map
      cleanChar))).map Char.toUpper = L := by
  rw [dropWhile_eq_self_of_all _ L
    (fun x hx => decide_eq_false_iff_not.mpr (char_good_ne_bom x (hg x hx).1))]
  rw [pyStrip_eq_self L (fun x hx => char_good_not_whitespace x (hg x hx).1)]
  rw [map_eq_self_of_fixed cleanChar L (fun x hx => cleanChar_eq_self x (hg x hx).1)]
  rw [collapseUnders_fixed L hchain, hstrip]
  exact map_eq_self_of_fixed Char.toUpper L
    (fun x hx => char_toUpper_of_not_lower x (hg x hx).2)

theorem clean_col_toList_good (s : String) :
    ∀ x ∈ (clean_col s).toList, (x.isAlphanum = true ∨ x = '_') ∧ x.isLower = false := by
  intro x hx
  simp only [clean_col] at hx
  obtain ⟨y, hy, rfl⟩ := List.mem_map.mp hx
  have h1 := stripUnders_subset _ y hy
  have h2 := collapseUnders_subset _ y h1
  obtain ⟨w, _, rfl⟩ := List.mem_map.mp h2
  rcases cleanChar_good w with h | h
  · exact ⟨Or.inl (char_toUpper_isAlphanum _ h), char_toUpper_isLower_false _⟩
  · rw [h]
    exact ⟨Or.inr (by decide), by decide⟩

theorem clean_col_toList_chain (s : String) :
    List.Chain' (fun a b : Char => ¬(a = '_' ∧ b = '_')) (clean_col s).toList := by
  show List.Chain' (fun a b : Char => ¬(a = '_' ∧ b = '_'))
    ((stripUnders (collapseUnders ((pyStrip (s.toList.dropWhile (fun c => c = '﻿'))).map
      cleanChar))).map Char.toUpper)
  exact chain_map_toUpper _ (chain_stripUnders _ (collapseUnders_chain _))

theorem clean_col_toList_strip (s : String) :
    stripUnders (clean_col s).toList = (clean_col s).toList := by
  show stripUnders ((stripUnders (collapseUnders ((pyStrip
      (s.toList.dropWhile (fun c => c = '﻿'))).map cleanChar))).map Char.toUpper) = _
  rw [stripUnders_upper_fixed]
  rfl

theorem clean_col_idem (s : String) : clean_col (clean_col s) = clean_col s := by
  show String.mk ((stripUnders (collapseUnders ((pyStrip
      ((clean_col s).toList.dropWhile (fun c => c = '﻿'))).map cleanChar))).map
      Char.toUpper) = clean_col s
  rw [cleanPipeline_fixed (clean_col s).toList (clean_col_toList_good s)
    (clean_col_toList_chain s) (clean_col_toList_strip s)]
  rfl

theorem dedupNames_id (names : List String) (seen : List (String × Nat))
    (hnd : names.Nodup) (hseen : ∀ n ∈ names, getAssoc seen n = none) :
    dedupNames names seen = names := by
  induction names generalizing seen with
  | nil => rfl
  | cons c rest ih =>
    simp only [dedupNames]
    rw [hseen c (List.mem_cons_self c rest)]
    show c :: dedupNames rest (setAssoc seen c 0) = c :: rest
    rw [ih (setAssoc seen c 0) (List.Nodup.of_cons hnd) fun n hn => ?_]
    rw [getAssoc_setAssoc_ne seen c n 0 fun he => (List.nodup_cons.mp hnd).1 (he ▸ hn)]
    exact hseen n (List.mem_cons_of_mem c hn)

set_option maxHeartbeats 1600000 in
theorem normalize_char (df : DF)
    (hnd : (df.cols.map fun p => clean_col p.1).Nodup) :
    normalize_dataframe df = ⟨df.cols.map fun p => (clean_col p.1, cleanColCells p.2)⟩ := by
  have h1 : (df.cols.map fun p => (clean_col p.1, p.2)).map Prod.fst =
      df.cols.map fun p => clean_col p.1 := by
    rw [List.map_map]
    exact List.map_congr_left fun a _ => rfl
  have h2 : (df.cols.map fun p => (clean_col p.1, p.2)).map Prod.snd =
      df.cols.map fun p => p.2 := by
    rw [List.map_map]
    exact List.map_congr_left fun a _ => rfl
  unfold normalize_dataframe
  simp only [h1, h2]
  rw [dedupNames_id (df.cols.map fun p => clean_col p.1) [] hnd (fun n _ => rfl)]
  rw [List.zip_map' (fun p : String × Col => clean_col p.1)
    (fun p : String × Col => p.2) df.cols]
  rw [List.map_map]
  rfl

theorem normalize_idem_aux (df : DF)
    (hnd : (df.cols.map fun p => clean_col p.1).Nodup)
    (hcells : ∀ p ∈ df.cols, cleanColCells p.2 = p.2) :
    normalize_dataframe (normalize_dataframe df) = normalize_dataframe df := by
  rw [normalize_char df hnd]
  have hnd1 : (((df.cols.map fun p => (clean_col p.1, cleanColCells p.2)).map
      fun p => clean_col p.1) : List String).Nodup := by
    rw [List.map_map]
    have : (df.cols.map ((fun p : String × Col => clean_col p.1) ∘
        fun p : String × Col => (clean_col p.1, cleanColCells p.2))) =
        df.cols.map fun p => clean_col p.1 :=
      List.map_congr_left fun a _ => clean_col_idem a.1
    rw [this]
    exact hnd
  rw [normalize_char _ hnd1]
  apply congrArg DF.mk
  rw [List.map_map]
  refine List.map_congr_left fun p hp => ?_
  show (clean_col (clean_col p.1), cleanColCells (cleanColCells p.2)) =
    (clean_col p.1, cleanColCells p.2)
  rw [clean_col_idem p.1, hcells p hp, hcells p hp]

/-- **C7** (counterexample): `preprocess_pit_data` — and the underlying
`_normalize_dataframe` string cleaning — is not idempotent: a cell `'None'`
is replaced by `''` in the first pass and `''` becomes missing (`NaN`) in the
second, because the `replace` mapping is a single non-recursive pass with
`'None' ↦ ''` but `'' ↦ NaN`. -/
theorem C7_counterexample :
    preprocess_pit_data (fun _ => some 0)
        (preprocess_pit_data (fun _ => some 0) ⟨[("X", Col.obj [some "None"])]⟩) ≠
      preprocess_pit_data (fun _ => some 0) ⟨[("X", Col.obj [some "None"])]⟩ := by
  decide

/-- **C7** (amended): the underlying `_normalize_dataframe` is idempotent on
every frame whose cleaned column names do not collide (so the duplicate
suffixing is inert) and whose object cells are fixed points of the string
cleaning (no null spellings, no blank-stripping cells): normalizing twice then
equals normalizing once. -/
theorem C7_idempotence_amended (df : DF)
    (hnd : (df.cols.map fun p => clean_col p.1).Nodup)
    (hcells : ∀ p ∈ df.cols, cleanColCells p.2 = p.2) :
    normalize_dataframe (normalize_dataframe df) = normalize_dataframe df :=
  normalize_idem_aux df hnd hcells

/-- Witness for the amended C7 on a concrete two-column frame. -/
theorem C7_idempotence_amended_witness :
    ((⟨[("Lap Time", Col.obj [some "1:23.456"]), ("KPH", Col.f64 [some 100])]⟩ :
      DF).cols.map fun p => clean_col p.1).Nodup ∧
    (∀ p ∈ (⟨[("Lap Time", Col.obj [some "1:23.456"]), ("KPH", Col.f64 [some 100])]⟩ :
      DF).cols, cleanColCells p.2 = p.2) ∧
    normalize_dataframe (normalize_dataframe
        ⟨[("Lap Time", Col.obj [some "1:23.456"]), ("KPH", Col.f64 [some 100])]⟩) =
      normalize_dataframe
        ⟨[("Lap Time", Col.obj [some "1:23.456"]), ("KPH", Col.f64 [some 100])]⟩ :=
  ⟨by decide, by decide, C7_idempotence_amended _ (by decide) (by decide)⟩
